import Mathlib

/-!
Verification of the hnl-pods execution engine against its specification.

The Rust sources are shallowly embedded: pure functions are translated
directly; effectful code (DB reads, LLM calls, tool RPCs, the broadcast
bus, randomness, wall-clock time) is made explicit through oracle
parameters and state passing.  External library primitives (AES-128
block, HMAC-SHA256) are abstracted as parameters with the properties the
program relies on; the url-safe base64 codec of the `base64` crate is
modelled concretely so that token-level (bit-flip) reasoning is possible.
Machine integers are modelled as `Nat`/`Int`; bytes are `Nat` values with
an explicit `< 256` side condition.
-/

namespace HnlPods

/-- A list of naturals is a byte string when every entry fits in 8 bits. -/
def allBytes (l : List Nat) : Prop := ∀ x ∈ l, x < 256

instance (l : List Nat) : Decidable (allBytes l) := by
  unfold allBytes
  infer_instance

/-! ## Url-safe base64 (model of the `base64` crate, URL_SAFE engine)

The engine used by `auth/encryption.rs` is `general_purpose::URL_SAFE`:
padded, canonical padding required, trailing bits must be zero.  The
alphabet is A-Z, a-z, 0-9, `-`, `_`. -/

namespace B64

/-- Sextet value to url-safe alphabet character. -/
def encChar (v : Nat) : Char :=
  Char.ofNat
    (if v < 26 then v + 65
     else if v < 52 then v + 71
     else if v < 62 then v - 4
     else if v = 62 then 45
     else 95)

/-- Alphabet character back to its sextet value; `none` for characters
outside the url-safe alphabet (this includes the pad character). -/
def decChar (c : Char) : Option Nat :=
  let n := c.toNat
  if 65 ≤ n ∧ n ≤ 90 then some (n - 65)
  else if 97 ≤ n ∧ n ≤ 122 then some (n - 71)
  else if 48 ≤ n ∧ n ≤ 57 then some (n + 4)
  else if n = 45 then some 62
  else if n = 95 then some 63
  else none

/-- Url-safe base64 encoding of a byte list, with canonical `=` padding. -/
def encode : List Nat → List Char
  | [] => []
  | [a] => [encChar (a / 4), encChar (a % 4 * 16), '=', '=']
  | [a, b] => [encChar (a / 4), encChar (a % 4 * 16 + b / 16), encChar (b % 16 * 4), '=']
  | a :: b :: c :: rest =>
      encChar (a / 4) :: encChar (a % 4 * 16 + b / 16) :: encChar (b % 16 * 4 + c / 64)
        :: encChar (c % 64) :: encode rest

/-- Strict url-safe base64 decoding: requires length divisible by four,
canonical padding placement, and zero trailing bits, as the `base64`
crate URL_SAFE engine does. -/
def decode : List Char → Option (List Nat)
  | [] => some []
  | c1 :: c2 :: c3 :: c4 :: rest =>
      match decChar c1, decChar c2 with
      | some s1, some s2 =>
          if c3 = '=' then
            if c4 = '=' ∧ rest = [] ∧ s2 % 16 = 0 then
              some [s1 * 4 + s2 / 16]
            else none
          else
            match decChar c3 with
            | some s3 =>
                if c4 = '=' then
                  if rest = [] ∧ s3 % 4 = 0 then
                    some [s1 * 4 + s2 / 16, s2 % 16 * 16 + s3 / 4]
                  else none
                else
                  match decChar c4 with
                  | some s4 =>
                      (decode rest).map
                        (fun d => (s1 * 4 + s2 / 16) :: (s2 % 16 * 16 + s3 / 4)
                          :: (s3 % 4 * 64 + s4) :: d)
                  | none => none
            | none => none
      | _, _ => none
  | _ => none

end B64

/-! ## Fernet credential cipher (model of `auth/encryption.rs`)

`FernetCipher::encrypt` / `FernetCipher::decrypt`.  The AES-128 block
primitives and HMAC-SHA256 come from external crates (`aes`, `cbc`,
`hmac`, `sha2`) and are abstracted as `FernetPrims`; the framing, CBC
chaining, PKCS7 padding, key split, and check order are translated from
the source.  The random IV and the wall-clock timestamp are explicit
arguments. -/

/-- Pointwise XOR of two byte lists (16-byte CBC blocks). -/
def xorBytes (a b : List Nat) : List Nat := List.zipWith (fun x y => x ^^^ y) a b

/-- Chunking worker, structurally recursive on a fuel bound that the
wrapper instantiates with the list length (enough fuel for every chunk,
since a non-empty list loses at least one element per step). -/
def chunksGo (fuel : Nat) (l : List Nat) : List (List Nat) :=
  match fuel, l with
  | _, [] => []
  | 0, _ :: _ => []
  | fuel + 1, x :: xs => ((x :: xs).take 16) :: chunksGo fuel ((x :: xs).drop 16)

/-- Split a byte list into 16-byte chunks (the CBC block stream). -/
def chunks16 (l : List Nat) : List (List Nat) := chunksGo l.length l

/-- CBC encryption: each plaintext block is XORed with the previous
ciphertext block (initially the IV) and then block-encrypted. -/
def cbcEncBlocks (E : List Nat → List Nat) (prev : List Nat) : List (List Nat) → List (List Nat)
  | [] => []
  | b :: bs =>
      let c := E (xorBytes prev b)
      c :: cbcEncBlocks E c bs

/-- CBC decryption: each ciphertext block is block-decrypted and XORed
with the previous ciphertext block (initially the IV). -/
def cbcDecBlocks (D : List Nat → List Nat) (prev : List Nat) : List (List Nat) → List (List Nat)
  | [] => []
  | c :: cs => xorBytes prev (D c) :: cbcDecBlocks D c cs

/-- PKCS7 padding to a multiple of 16 bytes: the source computes
`padded_len = (len / 16 + 1) * 16`, so the pad count is `16 - len % 16`
and every pad byte carries that count. -/
def pkcs7Pad (m : List Nat) : List Nat :=
  let padCount := 16 - m.length % 16
  m ++ List.replicate padCount padCount

/-- PKCS7 unpadding as performed by `decrypt_padded_mut::<Pkcs7>`: the
last byte gives the pad count, which must be in 1..16 and must match
every trailing pad byte. -/
def pkcs7Unpad (pt : List Nat) : Option (List Nat) :=
  let p := pt.getD (pt.length - 1) 0
  if p = 0 ∨ 16 < p ∨ pt.length < p then none
  else if (pt.drop (pt.length - p)).all (· = p) then some (pt.take (pt.length - p))
  else none

/-- Big-endian 8-byte encoding of a 64-bit timestamp
(`timestamp.to_be_bytes()`). -/
def beBytes8 (ts : Nat) : List Nat :=
  (List.range 8).map fun i => ts / 256 ^ (7 - i) % 256

/-- The external cryptographic primitives the cipher is built on: the
AES-128 block cipher (keyed encrypt and decrypt directions) and
HMAC-SHA256 (keyed). -/
structure FernetPrims where
  aesEncBlock : List Nat → List Nat → List Nat
  aesDecBlock : List Nat → List Nat → List Nat
  hmacSha256 : List Nat → List Nat → List Nat

/-- The cipher state: the 32-byte input key split into the signing key
(first half) and the encryption key (second half), as in
`FernetCipher::new`. -/
structure FernetCipher where
  signing_key : List Nat
  encryption_key : List Nat

/-- Model of `FernetCipher::new`: url-safe base64 decode of the key
string, which must yield exactly 32 bytes; the halves become the signing
and encryption keys. -/
def fernetNew (key_b64 : String) : Option FernetCipher :=
  match B64.decode key_b64.data with
  | some kb => if kb.length = 32 then some ⟨kb.take 16, kb.drop 16⟩ else none
  | none => none

/-- The distinct failure exits of `FernetCipher::decrypt`, in source
order: base64 decode failure, token shorter than 73 bytes, version byte
other than 0x80, HMAC verification failure, CBC/PKCS7 failure. -/
inductive FernetError
  | invalidBase64
  | tooShort
  | invalidVersion
  | hmacMismatch
  | badPadding
deriving DecidableEq, Repr

/-- The AES-128-CBC ciphertext of the PKCS7-padded plaintext. -/
def fernetCt (P : FernetPrims) (c : FernetCipher) (iv : List Nat) (plaintext : List Nat) :
    List Nat :=
  (cbcEncBlocks (P.aesEncBlock c.encryption_key) iv (chunks16 (pkcs7Pad plaintext))).flatten

/-- The signed prefix of a token built by `FernetCipher::encrypt`:
version 0x80, the big-endian timestamp, the IV, and the AES-128-CBC
ciphertext of the PKCS7-padded plaintext. -/
def fernetPayload (P : FernetPrims) (c : FernetCipher) (timestamp : Nat) (iv : List Nat)
    (plaintext : List Nat) : List Nat :=
  128 :: (beBytes8 timestamp ++ iv ++ fernetCt P c iv plaintext)

/-- The raw bytes of a token: the signed prefix followed by its
HMAC-SHA256 under the signing key. -/
def fernetTokenBytes (P : FernetPrims) (c : FernetCipher) (timestamp : Nat) (iv : List Nat)
    (plaintext : List Nat) : List Nat :=
  let payload := fernetPayload P c timestamp iv plaintext
  payload ++ P.hmacSha256 c.signing_key payload

/-- Model of `FernetCipher::encrypt`: PKCS7-pad, AES-128-CBC encrypt,
frame as version || timestamp_be || iv || ciphertext, append
HMAC-SHA256 of that prefix under the signing key, base64-encode. -/
def fernetEncrypt (P : FernetPrims) (c : FernetCipher) (timestamp : Nat) (iv : List Nat)
    (plaintext : List Nat) : String :=
  String.mk (B64.encode (fernetTokenBytes P c timestamp iv plaintext))

/-- Model of `FernetCipher::decrypt`: base64 decode, length check,
version check, HMAC verification over everything but the trailing 32
bytes, then AES-128-CBC decryption and PKCS7 unpadding — in that order. -/
def fernetDecrypt (P : FernetPrims) (c : FernetCipher) (token : String) :
    Except FernetError (List Nat) :=
  match B64.decode token.data with
  | none => .error .invalidBase64
  | some data =>
    if data.length < 73 then .error .tooShort
    else if data.headD 0 ≠ 128 then .error .invalidVersion
    else
      let payload := data.take (data.length - 32)
      let hm := data.drop (data.length - 32)
      if P.hmacSha256 c.signing_key payload ≠ hm then .error .hmacMismatch
      else
        let iv := (payload.drop 9).take 16
        let ct := payload.drop 25
        if ct.length % 16 ≠ 0 then .error .badPadding
        else
          match pkcs7Unpad ((cbcDecBlocks (P.aesDecBlock c.encryption_key) iv
              (chunks16 ct)).flatten) with
          | none => .error .badPadding
          | some m => .ok m

/-- True exactly when a decrypt attempt failed. -/
def decryptFails (r : Except FernetError (List Nat)) : Bool :=
  match r with
  | .error _ => true
  | .ok _ => false

/-- The behavioural assumptions the cipher places on its external
primitives: on 16-byte blocks of bytes, block encryption produces a
16-byte block of bytes and block decryption inverts it; the MAC always
produces 32 bytes. -/
def GoodPrims (P : FernetPrims) (c : FernetCipher) : Prop :=
  (∀ b : List Nat, b.length = 16 → allBytes b →
      (P.aesEncBlock c.encryption_key b).length = 16 ∧
      allBytes (P.aesEncBlock c.encryption_key b) ∧
      P.aesDecBlock c.encryption_key (P.aesEncBlock c.encryption_key b) = b) ∧
  (∀ m : List Nat, (P.hmacSha256 c.signing_key m).length = 32 ∧
      allBytes (P.hmacSha256 c.signing_key m))

/-! ## JSON values (model of `serde_json::Value`)

Objects keep their fields in the (sorted) order in which `serde_json`
serializes them; numbers are restricted to integers, which covers every
value the verified code paths construct. -/

inductive Json
  | null
  | bool (b : Bool)
  | num (n : Int)
  | str (s : String)
  | arr (elems : List Json)
  | obj (fields : List (String × Json))

/-- Field lookup on an object (`Value::get`); `none` on non-objects and
missing keys. -/
def Json.get (j : Json) (key : String) : Option Json :=
  match j with
  | .obj fields => (fields.find? (fun kv => kv.1 == key)).map (·.2)
  | _ => none

/-- String extraction (`Value::as_str`). -/
def Json.asStr (j : Json) : Option String :=
  match j with
  | .str s => some s
  | _ => none

/-- Boolean extraction (`Value::as_bool`). -/
def Json.asBool (j : Json) : Option Bool :=
  match j with
  | .bool b => some b
  | _ => none

/-- Array extraction (`Value::as_array`). -/
def Json.asArr (j : Json) : Option (List Json) :=
  match j with
  | .arr xs => some xs
  | _ => none

/-- Minimal JSON string escaping (backslash and double quote). -/
def jsonEscape (s : String) : String :=
  String.mk (s.data.flatMap fun ch =>
    if ch = '\\' then ['\\', '\\']
    else if ch = '\"' then ['\\', '\"']
    else [ch])

mutual

/-- Compact serialization (`serde_json::to_string`). -/
def Json.render : Json → String
  | .null => "null"
  | .bool b => if b then "true" else "false"
  | .num n => toString n
  | .str s => "\"" ++ jsonEscape s ++ "\""
  | .arr xs => "[" ++ Json.renderList xs ++ "]"
  | .obj fs => "\x7b" ++ Json.renderFields fs ++ "\x7d"

/-- Serialization of array elements, comma separated. -/
def Json.renderList : List Json → String
  | [] => ""
  | [x] => Json.render x
  | x :: xs => Json.render x ++ "," ++ Json.renderList xs

/-- Serialization of object fields, comma separated. -/
def Json.renderFields : List (String × Json) → String
  | [] => ""
  | [(k, v)] => "\"" ++ jsonEscape k ++ "\":" ++ Json.render v
  | (k, v) :: fs => "\"" ++ jsonEscape k ++ "\":" ++ Json.render v ++ "," ++ Json.renderFields fs

end

/-! ## Tool result text extraction
(model of `agent_api_client/tool_executor.rs::extract_tool_result_text`) -/

/-- Translation of `extract_tool_result_text`: when the result is
successful, look at the `result` field; if it is an array whose first
element is a `text`-typed part carrying a string, hand back that text,
otherwise serialize the `result` field; on anything else serialize the
whole tool-result object. -/
def extract_tool_result_text (tool_result : Json) : String :=
  match (tool_result.get "success").bind Json.asBool with
  | some true =>
      match tool_result.get "result" with
      | some result_data =>
          match result_data.asArr with
          | some elems =>
              match elems.head? with
              | some first =>
                  if ((first.get "type").bind Json.asStr) = some "text" then
                    match (first.get "text").bind Json.asStr with
                    | some text => text
                    | none => result_data.render
                  else result_data.render
              | none => result_data.render
          | none => result_data.render
      | none => tool_result.render
  | _ => tool_result.render

/-- The extraction rule exactly as the specification words it: a
successful tool result with a single text-typed content part hands back
that part's text; otherwise the entire result object is JSON-serialized. -/
def extractSpecText (tool_result : Json) : String :=
  match (tool_result.get "success").bind Json.asBool with
  | some true =>
      match (tool_result.get "result").bind Json.asArr with
      | some [first] =>
          if ((first.get "type").bind Json.asStr) = some "text" then
            match (first.get "text").bind Json.asStr with
            | some text => text
            | none => tool_result.render
          else tool_result.render
      | _ => tool_result.render
  | _ => tool_result.render

/-- The extraction rule as amended to match the code: on success the
text of the FIRST text-typed part of the `result` array is used (the
array need not be a singleton); the serialization fallback on a
successful result covers only the `result` field, and the whole object
is serialized only when the result is unsuccessful or lacks a `result`
field. -/
def extractAmendedText (tool_result : Json) : String :=
  if (tool_result.get "success").bind Json.asBool = some true then
    match tool_result.get "result" with
    | some result_data =>
        match result_data.asArr with
        | some elems =>
            match elems.head? with
            | some first =>
                if ((first.get "type").bind Json.asStr) = some "text" then
                  match (first.get "text").bind Json.asStr with
                  | some text => text
                  | none => result_data.render
                else result_data.render
            | none => result_data.render
        | none => result_data.render
    | none => tool_result.render
  else tool_result.render

/-! ## Stdio argument sanitizing (model of `utils/command_utils.rs`) -/

/-- Rust `str::split_whitespace`: split on whitespace, discarding empty
fragments. -/
def splitWhitespace (s : List Char) : List (List Char) :=
  ((s.splitOnP (fun c => c.isWhitespace)).filter (fun w => w ≠ [])).map id

/-- Quote stripping for one argument, byte-faithfully: an argument that
starts and ends with a doubled quote pair is sliced as
`arg[2 .. len - 2]`, which in Rust panics when the length is below four
(modelled as `none`); an argument of length above one that starts and
ends with a single quote character is sliced as `arg[1 .. len - 1]`. -/
def stripArgQuotes (a : List Char) : Option (List Char) :=
  if a.take 2 = ['\"', '\"'] ∧ (a.reverse.take 2) = ['\"', '\"'] then
    if a.length < 4 then none
    else some ((a.drop 2).take (a.length - 4))
  else if a.head? = some '\"' ∧ a.getLast? = some '\"' ∧ 1 < a.length then
    some ((a.drop 1).take (a.length - 2))
  else some a

/-- Model of `fix_stdio_args`: each argument is quote-stripped; if the
cleaned argument contains a space and starts with neither `@` nor `/`,
it is split on whitespace into separate arguments, otherwise it passes
through; `none` models the Rust slice panic on degenerate quoted
arguments. -/
def fix_stdio_args (args : List (List Char)) : Option (List (List Char)) :=
  match args with
  | [] => some []
  | a :: rest =>
      match stripArgQuotes a with
      | none => none
      | some cleaned =>
          match fix_stdio_args rest with
          | none => none
          | some tail =>
              if cleaned.contains ' ' ∧ cleaned.head? ≠ some '@' ∧ cleaned.head? ≠ some '/' then
                some (splitWhitespace cleaned ++ tail)
              else some (cleaned :: tail)

/-- Quote stripping as the claim words it (total): surrounding double
quotes, whether a single pair or a doubled pair, are stripped. -/
def stripSpec (a : List Char) : List Char :=
  if a.take 2 = ['\"', '\"'] ∧ (a.reverse.take 2) = ['\"', '\"'] then
    (a.drop 2).take (a.length - 4)
  else if a.head? = some '\"' ∧ a.getLast? = some '\"' ∧ 1 < a.length then
    (a.drop 1).take (a.length - 2)
  else a

/-- The rewrite exactly as the claim words it, as a total function:
surrounding double quotes (single or doubled pairs) are stripped, and a
stripped argument containing a space that starts with neither `@` nor
`/` is split on whitespace; all other arguments pass through unchanged. -/
def fixStdioArgsSpec (args : List (List Char)) : List (List Char) :=
  args.flatMap fun a =>
    let cleaned := stripSpec a
    if cleaned.contains ' ' ∧ cleaned.head? ≠ some '@' ∧ cleaned.head? ≠ some '/' then
      splitWhitespace cleaned
    else [cleaned]

/-! ## Agent step executor
(model of `agent_api_client/mod.rs::execute_agent_step`)

DB lookups, the provider dispatch and the MCP tool dispatch are
effectful; they are abstracted into `AgentEnv`.  The LLM oracle is a
function of the conversation so far, which covers every possible
provider behaviour including one that emits tool calls forever. -/

namespace Agent

/-- Common response shape produced by every provider adapter
(`providers::LLMApiResponse`; `usage` and `latency_ms` carry no control
flow and are omitted). -/
structure LLMApiResponse where
  success : Bool
  content : String
  tool_calls : Option (List Json)
  model_used : Option String
  error : Option String

/-- Conversation message (`message_formatter::LLMMessage`). -/
structure LLMMessage where
  role : String
  content : String
  tool_calls : Option (List Json)
  tool_call_id : Option String

/-- Constructor `LLMMessage::system`. -/
def LLMMessage.system (content : String) : LLMMessage :=
  ⟨"system", content, none, none⟩

/-- Constructor `LLMMessage::user`. -/
def LLMMessage.user (content : String) : LLMMessage :=
  ⟨"user", content, none, none⟩

/-- Constructor `LLMMessage::assistant`. -/
def LLMMessage.assistant (content : String) (tool_calls : Option (List Json)) : LLMMessage :=
  ⟨"assistant", content, tool_calls, none⟩

/-- Constructor `LLMMessage::tool`. -/
def LLMMessage.tool (content : String) (tool_call_id : String) : LLMMessage :=
  ⟨"tool", content, none, some tool_call_id⟩

/-- The agent document fields `execute_agent_step` reads. -/
structure AgentDoc where
  name : String
  llm_id : String
  system_prompt : String

/-- The effectful collaborators of `execute_agent_step`: agent and LLM
document lookup, the provider call (a function of the conversation), and
`tool_executor::execute_tool_call` for one tool-call value. -/
structure AgentEnv where
  getAgent : String → Option AgentDoc
  llmFound : String → Bool
  llm : List LLMMessage → LLMApiResponse
  execTool : Json → Json

/-- Tool name extraction used for progress events
(`tool_call.get("function").get("name")`, defaulting to `unknown`). -/
def toolCallName (tc : Json) : String :=
  (((tc.get "function").bind (fun f => f.get "name")).bind Json.asStr).getD "unknown"

/-- Option String to JSON (serde serializes `None` as `null`). -/
def optStrJson : Option String → Json
  | some s => .str s
  | none => .null

/-- Payload of an `LLM_RESPONSE` progress event; the initial response
carries no `round` field. -/
def llmResponseEventData (agentName : String) (round : Option Nat)
    (resp : LLMApiResponse) : Json :=
  match round with
  | none =>
      .obj [("agent_name", .str agentName), ("content", .str resp.content),
        ("has_tool_calls", .bool resp.tool_calls.isSome),
        ("model", optStrJson resp.model_used)]
  | some r =>
      .obj [("agent_name", .str agentName), ("content", .str resp.content),
        ("has_tool_calls", .bool resp.tool_calls.isSome),
        ("model", optStrJson resp.model_used), ("round", .num r)]

/-- The two progress events surrounding one tool-call execution. -/
def toolCallEvents (agentName : String) (round : Nat) (tc : Json) (result : Json) :
    List (String × Json) :=
  let name := toolCallName tc
  [("TOOL_CALL_STARTED",
      .obj [("agent_name", .str agentName), ("round", .num round), ("tool_name", .str name)]),
   ("TOOL_CALL_COMPLETED",
      .obj [("round", .num round),
        ("success", .bool (((result.get "success").bind Json.asBool).getD false)),
        ("tool_name", .str name)])]

/-- Outcome of the multi-round tool-use loop: the response the loop
stopped on, the final `round_count`, all accumulated tool results, the
progress events fired, and the number of follow-up LLM calls made. -/
structure LoopOut where
  resp : LLMApiResponse
  rounds : Nat
  results : List Json
  events : List (String × Json)
  calls : Nat

/-- The multi-round tool-execution loop of `execute_agent_step`
(`while current_response.tool_calls.is_some() && round_count < max_tool_rounds`,
with `max_tool_rounds = 20`): execute every emitted tool call, feed the
extracted texts back as `tool` messages, make one follow-up LLM call,
and stop early when that call fails.  The guard is exactly the source
guard; `fuel` is a structural recursion bound that the entry point sets
to 20, so that it can never run out before the `round < 20` guard stops
the loop. -/
def toolLoop (env : AgentEnv) (agentName : String) : Nat → List LLMMessage →
    LLMApiResponse → Nat → List Json → List (String × Json) → Nat → LoopOut
  | 0, _, cur, round, accResults, accEvents, accCalls =>
    { resp := cur, rounds := round, results := accResults, events := accEvents,
      calls := accCalls }
  | fuel + 1, messages, cur, round, accResults, accEvents, accCalls =>
    if cur.tool_calls.isSome ∧ round < 20 then
      let rc := round + 1
      let tcs := cur.tool_calls.getD []
      let pairs := tcs.map fun tc => (tc, env.execTool tc)
      let results := pairs.map (fun p => p.2)
      let callEvents := pairs.flatMap fun p => toolCallEvents agentName rc p.1 p.2
      let messages2 := messages ++ [LLMMessage.assistant cur.content (some tcs)]
        ++ (pairs.map fun p =>
              LLMMessage.tool (extract_tool_result_text p.2) (((p.1.get "id").bind Json.asStr).getD ""))
      let next := env.llm messages2
      if next.success then
        toolLoop env agentName fuel messages2 next rc (accResults ++ results)
          (accEvents ++ callEvents ++ [("LLM_RESPONSE", llmResponseEventData agentName (some rc) next)])
          (accCalls + 1)
      else
        { resp := next, rounds := rc, results := accResults ++ results,
          events := accEvents ++ callEvents, calls := accCalls + 1 }
    else
      { resp := cur, rounds := round, results := accResults, events := accEvents,
        calls := accCalls }

/-- The conversation `execute_agent_step` sends to the initial LLM call:
prior history, an optional system message spliced in front, and the task
text (the `task` parameter, defaulting to the step description) as the
final user message. -/
def initialMessages (agent : AgentDoc) (step_description : String) (parameters : Json)
    (conversation_history : Option (List LLMMessage)) : List LLMMessage :=
  let messages0 := conversation_history.getD []
  let messages1 :=
    if agent.system_prompt ≠ "" then LLMMessage.system agent.system_prompt :: messages0
    else messages0
  let task := ((parameters.get "task").bind Json.asStr).getD step_description
  messages1 ++ [LLMMessage.user task]

/-- Model of `execute_agent_step`: load agent and LLM, build the
conversation, make the initial LLM call, run the tool-use loop, and
return the outcome object together with the progress events fired
through the event callback. -/
def executeAgentStep (env : AgentEnv) (agent_id : String) (step_description : String)
    (parameters : Json) (conversation_history : Option (List LLMMessage)) :
    Json × List (String × Json) :=
  match env.getAgent agent_id with
  | none =>
      (.obj [("error", .str ("Agent " ++ agent_id ++ " not found")), ("success", .bool false)], [])
  | some agent =>
      if env.llmFound agent.llm_id = false then
        (.obj [("error", .str ("LLM " ++ agent.llm_id ++ " not found")), ("success", .bool false)],
          [])
      else
        let messages := initialMessages agent step_description parameters conversation_history
        let resp0 := env.llm messages
        if resp0.success = false then
          (.obj [("agent_id", .str agent_id), ("agent_name", .str agent.name),
            ("error", .str (resp0.error.getD "LLM call failed")), ("success", .bool false)], [])
        else
          let out := toolLoop env agent.name 20 messages resp0 0 [] [] 0
          (.obj [("agent_id", .str agent_id), ("agent_name", .str agent.name),
            ("content", .str out.resp.content),
            ("model_used", optStrJson out.resp.model_used),
            ("success", .bool true),
            ("tool_results", .arr out.results),
            ("tool_rounds", .num out.rounds)],
           ("LLM_RESPONSE", llmResponseEventData agent.name none resp0) :: out.events)

/-- The tool-use loop outcome reached by `execute_agent_step` once the
lookups succeeded: entered from the initial conversation and the initial
LLM response, with `round_count = 0` and full fuel. -/
def agentLoopOut (env : AgentEnv) (agent : AgentDoc) (step_description : String)
    (parameters : Json) (conversation_history : Option (List LLMMessage)) : LoopOut :=
  let messages := initialMessages agent step_description parameters conversation_history
  toolLoop env agent.name 20 messages (env.llm messages) 0 [] [] 0

end Agent

/-! ## Flow orchestrator (model of `services/flow_service.rs`)

The executor loop `FlowExecutor::run`, its step dispatch, the condition
and approval handling, and the two event paths: the persistent
`emit` path and the broadcast-only callback path used inside LLM steps.
DB reads (the cancellation flag, the approval decision) are oracles
indexed by loop iteration and poll tick; real time is abstracted by
counting 2-second poll ticks. -/

namespace FlowSvc

/-- Step kinds (`models/flow.rs::FlowStepType`). -/
inductive FlowStepType
  | llm
  | tool
  | condition
  | parallel
  | webhook
  | feedback_loop
  | quality_check
  | approval
deriving DecidableEq

/-- A flow step (`models/flow.rs::FlowStep`; fields without control-flow
relevance are omitted).  `timeout_seconds` is in seconds. -/
structure FlowStep where
  id : String
  name : String
  step_type : FlowStepType
  agent_id : Option String := none
  parameters : List (String × Json) := []
  next_steps : List String := []
  condition : Option String := none
  timeout_seconds : Option Nat := some 300
  retry_count : Int := 0

/-- A flow (`models/flow.rs::Flow`, control-relevant fields). -/
structure Flow where
  name : String
  steps : List FlowStep
  start_step_id : String

/-- Event kinds (`models/flow_events.rs::FlowEventType`). -/
inductive FlowEventType
  | executionStarted
  | executionCompleted
  | executionFailed
  | executionCancelled
  | stepStarted
  | stepCompleted
  | stepFailed
  | stepSkipped
  | stepProgress
  | connectionEstablished
  | heartbeat
  | llmResponse
  | llmStreamingChunk
  | toolCallStarted
  | toolCallCompleted
  | feedbackLoopStarted
  | feedbackLoopIteration
  | feedbackLoopCompleted
  | bidirectionalFeedbackStarted
  | bidirectionalFeedbackCompleted
  | qualityCheckPassed
  | qualityCheckFailed
  | approvalRequired
  | approvalGranted
  | approvalRejected
deriving DecidableEq

/-- An execution event (`models/flow_events.rs::FlowExecutionEvent`;
the id, execution id, data map and timestamp do not drive control flow
and are omitted). -/
structure FlowEvent where
  event_type : FlowEventType
  step_id : Option String
  message : String
deriving DecidableEq

/-- The per-execution event-bus state: the durable `flow_events` log and
the pending buffer of every current subscriber (broadcast channel of
capacity 256). -/
structure BusState where
  log : List FlowEvent
  subs : List (List FlowEvent)

/-- Broadcast to the current subscribers only (the path taken by the
LLM-step event callback, which fires the channel without touching the
DB): a subscriber at capacity drops the event. -/
def broadcastEvent (s : BusState) (e : FlowEvent) : BusState :=
  { s with subs := s.subs.map fun q => if q.length < 256 then q ++ [e] else q }

/-- The `FlowExecutor::emit` / `FlowService::emit_event` path: append
to the durable event log, then broadcast to the current subscribers. -/
def persistAndBroadcast (s : BusState) (e : FlowEvent) : BusState :=
  { log := s.log ++ [e], subs := (broadcastEvent s e).subs }

/-- Rust `str::replace` driven variable substitution
(`flow_service.rs::resolve_variables`): for each variable, replace both
placeholder spellings by the value (strings verbatim, other values
serialized). -/
def resolveVariables (template : String) (vars : List (String × Json)) : String :=
  vars.foldl
    (fun acc kv =>
      let valStr := match kv.2 with
        | .str s => s
        | other => other.render
      (acc.replace ("$\x7b" ++ kv.1 ++ "\x7d") valStr).replace
        ("\x7b\x7b" ++ kv.1 ++ "\x7d\x7d") valStr)
    template

/-- ASCII lowercasing, modelling `str::to_lowercase` on the ASCII
strings the truthiness table compares against. -/
def asciiLower (s : String) : String := String.mk (s.data.map Char.toLower)

/-- Whitespace trimming at both ends, modelling `str::trim`. -/
def trimStr (s : String) : String :=
  String.mk (((s.data.dropWhile Char.isWhitespace).reverse.dropWhile Char.isWhitespace).reverse)

/-- The condition truthiness rule of `execute_condition_step`:
lowercase-trimmed `true`/`1`/`yes` is true, `false`/`0`/`no`/empty is
false, anything else is true exactly when the trimmed string is
non-empty. -/
def conditionMet (resolved : String) : Bool :=
  let lt := asciiLower (trimStr resolved)
  if lt = "true" ∨ lt = "1" ∨ lt = "yes" then true
  else if lt = "false" ∨ lt = "0" ∨ lt = "no" ∨ lt = "" then false
  else trimStr resolved ≠ ""

/-- Step parameter lookup. -/
def paramGet (step : FlowStep) (key : String) : Option Json :=
  (step.parameters.find? (fun kv => kv.1 == key)).map (fun kv => kv.2)

/-- Model of `execute_condition_step`: evaluate the resolved condition
(defaulting to `true`), pick `next_steps[0]` on true and `next_steps[1]`
on false, and return the result object carrying `next_step_id`. -/
def execConditionStep (step : FlowStep) (vars : List (String × Json)) :
    Except String Json :=
  let resolved := resolveVariables (step.condition.getD "true") vars
  let met := conditionMet resolved
  let next := if met then step.next_steps.head? else step.next_steps.get? 1
  .ok (.obj [("condition_result", .bool met),
    ("next_step_id", Agent.optStrJson next),
    ("output", .bool met)])

/-- One DB observation during approval polling: the decision field (only
present once a client submitted one) and the cancellation flag. -/
structure ApprovalObs where
  approval_decision : Option Bool
  cancel : Bool

/-- The approval polling loop of `execute_approval_step`: every 2-second
tick first checks the elapsed time (two seconds per completed sleep)
against the timeout, then the decision, then the cancellation flag.
`fuel` is a structural recursion bound; the entry point passes
`timeout / 2 + 1`, so fuel reaches zero only at a tick whose elapsed
time already exceeds the timeout, making the zero-fuel result the same
timeout error the guard would produce. -/
def approvalPoll (obs : Nat → ApprovalObs) (timeout : Nat) : Nat → Nat →
    Except String Json
  | 0, _ => .error "Approval timed out"
  | fuel + 1, t =>
    if 2 * t > timeout then .error "Approval timed out"
    else
      let o := obs t
      match o.approval_decision with
      | some true => .ok (.obj [("approved", .bool true), ("output", .str "approved")])
      | some false => .error "Approval rejected"
      | none =>
          if o.cancel then .error "Execution cancelled"
          else approvalPoll obs timeout fuel (t + 1)

/-- The effectful collaborators of `FlowExecutor::run`, indexed by loop
iteration: the cancellation flag read at the top of the loop, the agent
executor environment for LLM steps, the MCP dispatch for tool steps, and
the approval-poll observations. -/
structure RunEnv where
  cancelAt : Nat → Bool
  agentEnv : Nat → Agent.AgentEnv
  callTool : Nat → String → String → Option (List (String × Json)) → Except String Json
  approvalObs : Nat → Nat → ApprovalObs

/-- Mapping from callback event names to event kinds, as in the closure
inside `execute_llm_step`. -/
def mapCallbackEventType (name : String) : FlowEventType :=
  if name = "LLM_RESPONSE" then .llmResponse
  else if name = "LLM_STREAMING_CHUNK" then .llmStreamingChunk
  else if name = "TOOL_CALL_STARTED" then .toolCallStarted
  else if name = "TOOL_CALL_COMPLETED" then .toolCallCompleted
  else .stepProgress

/-- Model of `execute_llm_step`: resolve the task, run the agent step
executor, fire every callback event on the broadcast channel only (the
callback closure never writes the event log), and succeed exactly when
the agent outcome says `success: true`. -/
def execLlmStep (env : RunEnv) (step : FlowStep) (k : Nat) (vars : List (String × Json))
    (bus : BusState) : Except String Json × BusState :=
  match step.agent_id with
  | none => (.error "LLM step requires agent_id", bus)
  | some agent_id =>
      let task := resolveVariables
        (((paramGet step "task").bind Json.asStr).getD step.name) vars
      let params := Json.obj [("task", .str task)]
      let (result, cbEvents) := Agent.executeAgentStep (env.agentEnv k) agent_id step.name params none
      let bus := cbEvents.foldl
        (fun b ev => broadcastEvent b ⟨mapCallbackEventType ev.1, some step.id, ev.1⟩) bus
      if (result.get "success").bind Json.asBool = some true then
        (.ok (.obj [("agent_result", result),
          ("output", (result.get "content").getD (.str ""))]), bus)
      else
        (.error (((result.get "error").bind Json.asStr).getD "LLM step failed"), bus)

/-- Model of `execute_tool_step`: read the required parameters and
dispatch to the session manager. -/
def execToolStep (env : RunEnv) (step : FlowStep) (k : Nat) : Except String Json :=
  match (paramGet step "connection_id").bind Json.asStr with
  | none => .error "Tool step requires connection_id parameter"
  | some connection_id =>
      match (paramGet step "tool_name").bind Json.asStr with
      | none => .error "Tool step requires tool_name parameter"
      | some tool_name =>
          let arguments := (paramGet step "arguments").bind fun j =>
            match j with
            | .obj fs => some fs
            | _ => none
          match env.callTool k connection_id tool_name arguments with
          | .ok result => .ok (.obj [("output", result)])
          | .error e => .error e

/-- Model of `execute_approval_step`: emit `ApprovalRequired` through
the persistent path, then poll (timeout defaulting to 300 s). -/
def execApprovalStep (env : RunEnv) (step : FlowStep) (k : Nat) (bus : BusState) :
    Except String Json × BusState :=
  let bus := persistAndBroadcast bus
    ⟨.approvalRequired, some step.id, "Approval required for step " ++ step.name⟩
  let timeout := step.timeout_seconds.getD 300
  (approvalPoll (env.approvalObs k) timeout (timeout / 2 + 1) 0, bus)

/-- Step dispatch of `FlowExecutor::execute_step`: feedback-loop steps
run as LLM steps; webhook and quality-check steps fall into the
not-yet-implemented branch. -/
def executeStep (env : RunEnv) (step : FlowStep) (k : Nat) (vars : List (String × Json))
    (bus : BusState) : Except String Json × BusState :=
  match step.step_type with
  | .llm => execLlmStep env step k vars bus
  | .tool => (execToolStep env step k, bus)
  | .condition => (execConditionStep step vars, bus)
  | .approval => execApprovalStep env step k bus
  | .parallel =>
      (.ok (.obj [("next_step_id", Agent.optStrJson step.next_steps.head?),
        ("output", .str "Parallel execution completed")]), bus)
  | .feedback_loop => execLlmStep env step k vars bus
  | _ => (.ok (.obj [("next_step_id", .null),
      ("output", .str "Step type not yet implemented")]), bus)

/-- Step lookup through the `HashMap` built from `flow.steps` (a later
duplicate id overwrites an earlier one). -/
def lookupStep (flow : Flow) (id : String) : Option FlowStep :=
  flow.steps.reverse.find? (fun s => s.id == id)

/-- Variable-map insertion (`HashMap::insert`). -/
def insertVar (vars : List (String × Json)) (key : String) (v : Json) :
    List (String × Json) :=
  if (vars.find? (fun kv => kv.1 == key)).isSome then
    vars.map fun kv => if kv.1 == key then (kv.1, v) else kv
  else vars ++ [(key, v)]

/-- Successor selection in `FlowExecutor::run`: an explicit non-empty
`next_step_id` from the step result wins; otherwise the first entry of
the step's `next_steps` is used; `none` ends the flow. -/
def selectNext (step : FlowStep) (result : Json) : Option String :=
  match (result.get "next_step_id").bind Json.asStr with
  | some nxt => if nxt ≠ "" then some nxt else step.next_steps.head?
  | none => step.next_steps.head?

/-- The main loop of `FlowExecutor::run`, fuel-bounded (the source loop
may run unboundedly on cyclic flows; `none` as final status models
running out of fuel).  Each iteration: observe the cancellation flag,
look the current step up, emit `StepStarted`, execute the step, then
either record the result and continue, finish, or emit
`StepFailed` / `ExecutionFailed` and stop. -/
def runFrom (flow : Flow) (env : RunEnv) (cur : String) (k : Nat)
    (vars : List (String × Json)) (completed : List String) (bus : BusState) :
    Nat → Option String × BusState
  | 0 => (none, bus)
  | fuel + 1 =>
    if env.cancelAt k then
      (some "cancelled",
        persistAndBroadcast bus ⟨.executionCancelled, some cur, "Execution cancelled by user"⟩)
    else
      match lookupStep flow cur with
      | none => (some "failed", bus)
      | some step =>
        let bus := persistAndBroadcast bus
          ⟨.stepStarted, some step.id, "Step " ++ step.name ++ " started"⟩
        let sr := executeStep env step k vars bus
        match sr.1 with
        | .ok result =>
          let vars := match result.get "output" with
            | some out => insertVar vars ("step_" ++ step.id ++ "_output") out
            | none => vars
          let bus := persistAndBroadcast sr.2
            ⟨.stepCompleted, some step.id, "Step " ++ step.name ++ " completed"⟩
          match selectNext step result with
          | some nxt => runFrom flow env nxt (k + 1) vars (completed ++ [step.id]) bus fuel
          | none =>
            (some "completed",
              persistAndBroadcast bus
                ⟨.executionCompleted, none, "Flow execution completed successfully"⟩)
        | .error e =>
          let bus := persistAndBroadcast sr.2
            ⟨.stepFailed, some step.id, "Step " ++ step.name ++ " failed: " ++ e⟩
          (some "failed",
            persistAndBroadcast bus
              ⟨.executionFailed, some step.id, "Flow execution failed at step " ++ step.name⟩)

/-- A whole execution run from the start step. -/
def runFlow (flow : Flow) (env : RunEnv) (vars : List (String × Json)) (bus : BusState)
    (fuel : Nat) : Option String × BusState :=
  runFrom flow env flow.start_step_id 0 vars [] bus fuel

/-- Number of events of one kind in an event list. -/
def countKind (k : FlowEventType) (log : List FlowEvent) : Nat :=
  log.countP (fun e => e.event_type == k)

/-- The event kinds that reach the bus only through the LLM-step event
callback (mapped inside `execute_llm_step`). -/
def callbackKind (t : FlowEventType) : Bool :=
  t == .llmResponse || t == .llmStreamingChunk || t == .toolCallStarted ||
    t == .toolCallCompleted || t == .stepProgress

/-- Number of callback-kind events in an event list. -/
def countCallback (log : List FlowEvent) : Nat :=
  log.countP (fun e => callbackKind e.event_type)

/-- The successor a condition step actually produces once its result
object passes through the orchestrator's `selectNext`. -/
def conditionStepNext (step : FlowStep) (vars : List (String × Json)) : Option String :=
  match execConditionStep step vars with
  | .ok r => selectNext step r
  | .error _ => none

/-- The successor rule the claim states for condition steps: the
selected branch entry, with an absent entry ending the flow. -/
def conditionClaimNext (step : FlowStep) (met : Bool) : Option String :=
  if met then step.next_steps.get? 0 else step.next_steps.get? 1

/-- The condition successor rule as amended to match the code: when the
selected branch entry is absent (or empty), the orchestrator falls back
to `next_steps[0]`, and the branch ends only when that fallback is also
absent. -/
def conditionAmendedNext (step : FlowStep) (met : Bool) : Option String :=
  let sel := if met then step.next_steps.head? else step.next_steps.get? 1
  match sel with
  | some nxt => if nxt ≠ "" then some nxt else step.next_steps.head?
  | none => step.next_steps.head?

end FlowSvc

/-! ## Token tampering -/

/-- Flip bit `b` of the character at position `i` of a token (tokens are
ASCII, so the flipped code point is always a valid character). -/
def tokenFlip (tok : List Char) (i b : Nat) : List Char :=
  tok.set i (Char.ofNat ((tok.getD i 'A').toNat ^^^ 2 ^ b))

instance decidableOptForall {α : Type} (o : Option α) (Q : α → Prop)
    [∀ x, Decidable (Q x)] : Decidable (∀ x, o = some x → Q x) :=
  match o with
  | none => isTrue (by intro x h; cases h)
  | some a =>
      if h : Q a then isTrue (by intro x hx; cases hx; exact h)
      else isFalse (by intro hall; exact h (hall a rfl))

/-- Executable no-forgery check for a token: every single-bit flip of
any character either fails to base64-decode, or decodes to the original
bytes, or to bytes that decryption rejects by length, version, or MAC
comparison.  This is the collision-freedom of the (abstracted) MAC on
the finite candidate set reachable by bit flips — a cryptographic
property of HMAC-SHA256 that cannot be proved for an abstract MAC and
is therefore a hypothesis. -/
def forgeCheck (P : FernetPrims) (c : FernetCipher) (data : List Nat) (tok : List Char) :
    Bool :=
  (List.range tok.length).all fun i =>
    (List.range 8).all fun b =>
      match B64.decode (tokenFlip tok i b) with
      | none => true
      | some d =>
          decide (d = data) || decide (d.length < 73) || decide (d.headD 0 ≠ 128) ||
            decide (P.hmacSha256 c.signing_key (d.take (d.length - 32)) ≠
              d.drop (d.length - 32))

/-! ## Concrete instances used by witnesses and counterexamples -/

/-- Identity in both block-cipher directions: the simplest primitive
pair satisfying the inversion laws. -/
def aesId : List Nat → List Nat → List Nat := fun _ b => b

/-- Primitives with identity block cipher and a constant MAC. -/
def idPrims : FernetPrims :=
  ⟨aesId, aesId, fun _ _ => List.replicate 32 0⟩

/-- A concrete 32-byte-key cipher. -/
def toyCipher : FernetCipher := ⟨List.replicate 16 1, List.replicate 16 2⟩

/-- An all-zero 16-byte IV. -/
def ivZero : List Nat := List.replicate 16 0

/-- A second IV, differing from `ivZero`. -/
def ivOne : List Nat := 1 :: List.replicate 15 0

/-- The signed prefix of the concrete tamper-test token (independent of
the MAC primitive). -/
def payloadC8 : List Nat := fernetPayload ⟨aesId, aesId, fun _ _ => []⟩ toyCipher 0 ivZero []

/-- A MAC that separates the tamper-test payload from every other
message: collision-free on the candidate set a bit flip can reach. -/
def macC8 : List Nat → List Nat → List Nat :=
  fun _ msg => if msg = payloadC8 then List.replicate 32 7 else List.replicate 32 9

/-- Primitives for the tamper test: identity block cipher, separating
MAC. -/
def flipPrims : FernetPrims := ⟨aesId, aesId, macC8⟩

/-- The concrete tamper-test token. -/
def tokenC8 : String := fernetEncrypt flipPrims toyCipher 0 ivZero []

/-- A concrete agent document. -/
def agentC1 : Agent.AgentDoc := ⟨"A", "L", ""⟩

/-- A concrete tool call emitted by the toy LLMs. -/
def tcC1 : Json := .obj [("function", .obj [("name", .str "add")]), ("id", .str "t1")]

/-- An LLM oracle whose initial call succeeds with a tool call and whose
follow-up call fails: exercises the break-on-failed-follow-up path. -/
def envC1 : Agent.AgentEnv :=
  ⟨fun _ => some agentC1, fun _ => true,
   fun msgs =>
     if msgs.length ≤ 1 then ⟨true, "c0", some [tcC1], none, none⟩
     else ⟨false, "", none, none, some "boom"⟩,
   fun _ => .obj [("success", .bool false)]⟩

/-- An LLM oracle that keeps emitting tool calls forever: exercises the
tool-round ceiling. -/
def envC5 : Agent.AgentEnv :=
  ⟨fun _ => some agentC1, fun _ => true,
   fun _ => ⟨true, "again", some [tcC1], none, none⟩,
   fun _ => .obj [("success", .bool true)]⟩

/-- A two-text-part successful tool result: the first part reads
`first`, the second `second`. -/
def exC9 : Json :=
  .obj [("result", .arr [.obj [("text", .str "first"), ("type", .str "text")],
      .obj [("text", .str "second"), ("type", .str "text")]]),
    ("success", .bool true)]

/-- An agent environment that never resolves anything (for run
environments whose LLM oracle is never consulted). -/
def nullAgentEnv : Agent.AgentEnv :=
  ⟨fun _ => none, fun _ => false, fun _ => ⟨false, "", none, none, none⟩, fun _ => .null⟩

/-- A condition step whose condition resolves to false and whose
`next_steps` has a single entry. -/
def stepC3 : FlowSvc.FlowStep :=
  { id := "c", name := "c", step_type := .condition, condition := some "false",
    next_steps := ["a"] }

/-- An approval step with the default timeout. -/
def stepC4 : FlowSvc.FlowStep := { id := "ap", name := "ap", step_type := .approval }

/-- A one-step flow consisting of the approval step. -/
def flowC4 : FlowSvc.Flow := ⟨"f", [stepC4], "ap"⟩

/-- A run environment in which cancellation is requested while the
approval step is polling (observed on the first tick), but never at a
step boundary. -/
def envC4 : FlowSvc.RunEnv :=
  ⟨fun _ => false, fun _ => nullAgentEnv, fun _ _ _ _ => .error "no",
   fun _ _ => ⟨none, true⟩⟩

/-- A run environment in which cancellation is already observed at the
first step boundary. -/
def envC4b : FlowSvc.RunEnv :=
  ⟨fun _ => true, fun _ => nullAgentEnv, fun _ _ _ _ => .error "no",
   fun _ _ => ⟨none, false⟩⟩

/-- A tool step with `retry_count = 3`. -/
def stepC6 : FlowSvc.FlowStep :=
  { id := "t", name := "t", step_type := .tool,
    parameters := [("connection_id", .str "c1"), ("tool_name", .str "add")],
    retry_count := 3 }

/-- A one-step flow consisting of the retryable tool step. -/
def flowC6 : FlowSvc.Flow := ⟨"f", [stepC6], "t"⟩

/-- A run environment whose tool dispatch fails on the first (and every)
consultation at iteration 0 of the run loop. -/
def envC6 : FlowSvc.RunEnv :=
  ⟨fun _ => false, fun _ => nullAgentEnv, fun _ _ _ _ => .error "boom",
   fun _ _ => ⟨none, false⟩⟩

/-- An LLM step bound to a concrete agent. -/
def stepC7 : FlowSvc.FlowStep :=
  { id := "l", name := "l", step_type := .llm, agent_id := some "a" }

/-- A one-step flow consisting of the LLM step. -/
def flowC7 : FlowSvc.Flow := ⟨"f", [stepC7], "l"⟩

/-- An agent environment whose LLM answers `hello` without tool calls. -/
def agentEnvC7 : Agent.AgentEnv :=
  ⟨fun _ => some agentC1, fun _ => true, fun _ => ⟨true, "hello", none, none, none⟩,
   fun _ => .null⟩

/-- A run environment for the LLM-step flow. -/
def envC7 : FlowSvc.RunEnv :=
  ⟨fun _ => false, fun _ => agentEnvC7, fun _ _ _ _ => .error "no",
   fun _ _ => ⟨none, false⟩⟩

/-- Degenerate quoting: an argument that triggers the doubled-quote
branch but is too short for the `arg[2 .. len - 2]` slice, making the
Rust code panic. -/
def degenerateQuoted (a : List Char) : Bool :=
  decide (a.take 2 = ['\"', '\"'] ∧ a.reverse.take 2 = ['\"', '\"'] ∧ a.length < 4)

/-! # Theorems -/

/-! ## C9 — tool result text extraction -/

/-- C9, counterexample: on a successful tool result whose `result` array
has TWO text parts, the code hands back the text of the first part,
whereas the claim (a SINGLE text part, otherwise serialize the entire
result object) prescribes the serialization, which is a different
string. -/
theorem c9_counterexample :
    extract_tool_result_text exC9 = "first" ∧
    extractSpecText exC9 = exC9.render ∧
    extract_tool_result_text exC9 ≠ extractSpecText exC9 := by
  refine ⟨rfl, rfl, ?_⟩
  decide

/-- C9, amended: the text handed back to the LLM is computed as follows:
for a successful tool result whose `result` field is an array whose
FIRST element is a text-typed part carrying a string, that text; for any
other successful result carrying a `result` field, the serialization of
the `result` field alone; otherwise the serialization of the entire
tool-result object. -/
theorem c9_extract_amended (j : Json) :
    extract_tool_result_text j = extractAmendedText j := by
  unfold extract_tool_result_text extractAmendedText
  rcases h : (j.get "success").bind Json.asBool with _ | b
  · simp [h]
  · cases b
    · simp [h]
    · simp [h]

/-! ## C10 — stdio argument sanitizing -/

/-- C10, counterexample: the argument consisting of exactly two double
quotes triggers the doubled-pair branch, whose slice `arg[2 .. len - 2]`
panics in Rust (modelled as `none`), while the claim prescribes a total
rewrite that would strip the quotes to the empty argument. -/
theorem c10_counterexample :
    fix_stdio_args [['\"', '\"']] = none ∧
    fixStdioArgsSpec [['\"', '\"']] = [[]] := ⟨rfl, rfl⟩

/-- Quote stripping matches the claim rule on every argument that is not
degenerately quoted. -/
theorem stripArgQuotes_eq_stripSpec (a : List Char) (h : degenerateQuoted a = false) :
    stripArgQuotes a = some (stripSpec a) := by
  unfold stripArgQuotes stripSpec
  unfold degenerateQuoted at h
  by_cases h2 : a.take 2 = ['\"', '\"'] ∧ (a.reverse.take 2) = ['\"', '\"']
  · have hlen : ¬ a.length < 4 := by
      intro hl
      simp [h2.1, h2.2, hl] at h
    simp [h2, hlen]
  · simp only [h2, if_false]
    split_ifs <;> rfl

/-- C10, amended: provided no argument is a degenerate doubled-quote
token of length two or three (on which the Rust slice panics), every
spawn argument is rewritten exactly as the claim states: surrounding
double quotes (single or doubled pairs) are stripped, and a stripped
argument that contains a space and starts with neither `@` nor `/` is
split on whitespace; all other arguments pass through unchanged. -/
theorem c10_fix_args_amended (args : List (List Char))
    (h : ∀ a ∈ args, degenerateQuoted a = false) :
    fix_stdio_args args = some (fixStdioArgsSpec args) := by
  induction args with
  | nil => rfl
  | cons a rest ih =>
      have ha := stripArgQuotes_eq_stripSpec a (h a (List.mem_cons_self a rest))
      have ihr := ih (fun x hx => h x (List.mem_cons_of_mem a hx))
      unfold fix_stdio_args
      simp only [ha, ihr, fixStdioArgsSpec, List.flatMap_cons]
      split_ifs <;> simp

/-- C10, witness for the amended theorem: the three canonical shapes — a
quoted value, a space-separated pair, a scoped package name — rewritten
as the claim states. -/
theorem c10_witness :
    fix_stdio_args [['\"', 'v', '\"'], ['-', 'f', ' ', 'x'], ['@', 'a', ' ', 'b']] =
      some (fixStdioArgsSpec [['\"', 'v', '\"'], ['-', 'f', ' ', 'x'], ['@', 'a', ' ', 'b']]) :=
  c10_fix_args_amended _ (by decide)

/-! ## C3 — condition steps -/

/-- C3, counterexample: a condition step whose condition resolves to
`false` with a single-entry `next_steps` list advances to
`next_steps[0]` in the code (the orchestrator falls back to the first
successor when the result carries none), while the claim says the
absent `next_steps[1]` ends that branch. -/
theorem c3_counterexample :
    FlowSvc.conditionMet (FlowSvc.resolveVariables (stepC3.condition.getD "true") []) =
      false ∧
    FlowSvc.conditionStepNext stepC3 [] = some "a" ∧
    FlowSvc.conditionClaimNext stepC3 false = none :=
  ⟨rfl, rfl, rfl⟩

/-- The orchestrator's successor selection applied to a condition-step
result object collapses to a rule on the selected branch entry. -/
theorem selectNext_condObj (step : FlowSvc.FlowStep) (met : Bool) (next : Option String) :
    FlowSvc.selectNext step (.obj [("condition_result", .bool met),
      ("next_step_id", Agent.optStrJson next), ("output", .bool met)]) =
      (match next with
       | some nxt => if nxt ≠ "" then some nxt else step.next_steps.head?
       | none => step.next_steps.head?) := by
  cases next <;> rfl

/-- C3, amended: the truthiness table holds exactly as claimed, and the
successor rule is the claimed one amended by the orchestrator fallback:
a true condition selects `next_steps[0]` and a false one
`next_steps[1]`, but when the selected successor is absent or empty the
flow falls back to `next_steps[0]`, ending the branch only when that is
also absent. -/
theorem c3_condition_amended (step : FlowSvc.FlowStep) (vars : List (String × Json)) :
    (∀ s : String,
      (FlowSvc.conditionMet s = true ↔
        (FlowSvc.asciiLower (FlowSvc.trimStr s) = "true" ∨
          FlowSvc.asciiLower (FlowSvc.trimStr s) = "1" ∨
          FlowSvc.asciiLower (FlowSvc.trimStr s) = "yes" ∨
          (FlowSvc.asciiLower (FlowSvc.trimStr s) ≠ "false" ∧
            FlowSvc.asciiLower (FlowSvc.trimStr s) ≠ "0" ∧
            FlowSvc.asciiLower (FlowSvc.trimStr s) ≠ "no" ∧
            FlowSvc.asciiLower (FlowSvc.trimStr s) ≠ "" ∧
            FlowSvc.trimStr s ≠ "")))) ∧
    FlowSvc.conditionStepNext step vars =
      FlowSvc.conditionAmendedNext step
        (FlowSvc.conditionMet (FlowSvc.resolveVariables (step.condition.getD "true") vars)) := by
  constructor
  · intro s
    unfold FlowSvc.conditionMet
    by_cases h1 : FlowSvc.asciiLower (FlowSvc.trimStr s) = "true" ∨
        FlowSvc.asciiLower (FlowSvc.trimStr s) = "1" ∨
        FlowSvc.asciiLower (FlowSvc.trimStr s) = "yes"
    · simp only [h1, if_true]
      tauto
    · by_cases h2 : FlowSvc.asciiLower (FlowSvc.trimStr s) = "false" ∨
          FlowSvc.asciiLower (FlowSvc.trimStr s) = "0" ∨
          FlowSvc.asciiLower (FlowSvc.trimStr s) = "no" ∨
          FlowSvc.asciiLower (FlowSvc.trimStr s) = ""
      · simp only [h1, h2, if_true, if_false]
        constructor
        · intro hx
          exact absurd hx (by simp)
        · intro hx
          rcases hx with hx | hx | hx | hx
          · exact absurd hx (by tauto)
          · exact absurd hx (by tauto)
          · exact absurd hx (by tauto)
          · rcases h2 with h2 | h2 | h2 | h2 <;> tauto
      · push_neg at h1 h2
        simp [h1, h2]
  · simp only [FlowSvc.conditionStepNext, FlowSvc.execConditionStep]
    rw [selectNext_condObj]
    rfl

/-! ## Event-bus bookkeeping lemmas shared by the orchestrator claims -/

/-- Counting distributes over appended logs. -/
theorem countKind_append (k : FlowSvc.FlowEventType) (l1 l2 : List FlowSvc.FlowEvent) :
    FlowSvc.countKind k (l1 ++ l2) = FlowSvc.countKind k l1 + FlowSvc.countKind k l2 :=
  List.countP_append _ _ _

/-- A single event of a different kind contributes nothing. -/
theorem countKind_single_ne (k : FlowSvc.FlowEventType) (e : FlowSvc.FlowEvent)
    (h : e.event_type ≠ k) : FlowSvc.countKind k [e] = 0 := by
  simp [FlowSvc.countKind, List.countP_cons]
  simp_all

/-- Callback-count distributes over appended logs. -/
theorem countCallback_append (l1 l2 : List FlowSvc.FlowEvent) :
    FlowSvc.countCallback (l1 ++ l2) =
      FlowSvc.countCallback l1 + FlowSvc.countCallback l2 :=
  List.countP_append _ _ _

/-- A single event of a non-callback kind contributes nothing to the
callback count. -/
theorem countCallback_single (e : FlowSvc.FlowEvent)
    (h : FlowSvc.callbackKind e.event_type = false) : FlowSvc.countCallback [e] = 0 := by
  simp [FlowSvc.countCallback, List.countP_cons, h]

/-- Broadcasting never touches the durable log, across any fold of
callback events. -/
theorem foldl_broadcast_log {α : Type} (l : List α) (g : α → FlowSvc.FlowEvent) :
    ∀ bus : FlowSvc.BusState,
      (l.foldl (fun b ev => FlowSvc.broadcastEvent b (g ev)) bus).log = bus.log := by
  induction l with
  | nil => intro bus; rfl
  | cons a t ih => intro bus; rw [List.foldl_cons, ih]; rfl

/-- Executing one step either leaves the durable log unchanged or (for
approval steps) appends exactly the `ApprovalRequired` event. -/
theorem executeStep_log (env : FlowSvc.RunEnv) (step : FlowSvc.FlowStep) (k : Nat)
    (vars : List (String × Json)) (bus : FlowSvc.BusState) :
    ((FlowSvc.executeStep env step k vars bus).2).log = bus.log ∨
    ((FlowSvc.executeStep env step k vars bus).2).log =
      bus.log ++ [⟨.approvalRequired, some step.id, "Approval required for step " ++ step.name⟩] := by
  unfold FlowSvc.executeStep
  cases step.step_type
  case llm | feedback_loop =>
    unfold FlowSvc.execLlmStep
    cases step.agent_id
    · exact Or.inl rfl
    · left
      dsimp only
      split <;> exact foldl_broadcast_log _ _ bus
  case approval => exact Or.inr rfl
  all_goals exact Or.inl rfl

/-- Executing one step preserves the count of every event kind other
than `ApprovalRequired`. -/
theorem executeStep_countKind (env : FlowSvc.RunEnv) (step : FlowSvc.FlowStep) (k : Nat)
    (vars : List (String × Json)) (bus : FlowSvc.BusState)
    (kind : FlowSvc.FlowEventType) (hk : kind ≠ .approvalRequired) :
    FlowSvc.countKind kind ((FlowSvc.executeStep env step k vars bus).2).log =
      FlowSvc.countKind kind bus.log := by
  rcases executeStep_log env step k vars bus with h | h <;> rw [h]
  rw [countKind_append, countKind_single_ne]
  · omega
  · simp
    exact fun hh => absurd hh.symm hk

/-- Executing one step preserves the callback-event count of the
durable log. -/
theorem executeStep_countCallback (env : FlowSvc.RunEnv) (step : FlowSvc.FlowStep) (k : Nat)
    (vars : List (String × Json)) (bus : FlowSvc.BusState) :
    FlowSvc.countCallback ((FlowSvc.executeStep env step k vars bus).2).log =
      FlowSvc.countCallback bus.log := by
  rcases executeStep_log env step k vars bus with h | h <;> rw [h]
  rw [countCallback_append, countCallback_single _ (by rfl)]
  omega

/-! ## C4 — cancellation versus terminal events -/

/-- C4, counterexample: cancellation is requested and observed during
approval polling (the step fails with the message `Execution
cancelled`), yet the execution emits `ExecutionFailed`, which the claim
forbids for any observed cancellation. -/
theorem c4_counterexample :
    FlowSvc.runFlow flowC4 envC4 [] ⟨[], []⟩ 2 =
      (some "failed",
        ⟨[⟨.stepStarted, some "ap", "Step ap started"⟩,
          ⟨.approvalRequired, some "ap", "Approval required for step ap"⟩,
          ⟨.stepFailed, some "ap", "Step ap failed: Execution cancelled"⟩,
          ⟨.executionFailed, some "ap", "Flow execution failed at step ap"⟩], []⟩) := rfl

/-- C4, amended: cancellation observed at a step boundary (the only
path that emits `ExecutionCancelled`) excludes `ExecutionCompleted` and
`ExecutionFailed` for the whole run; cancellation observed during
approval polling instead surfaces as a step failure and emits
`ExecutionFailed`.  Formally: whenever a run whose starting log carries
no terminal event ends with `ExecutionCancelled` in its log, that log
contains no `ExecutionCompleted` and no `ExecutionFailed`. -/
theorem c4_cancel_amended :
    ∀ (fuel : Nat) (flow : FlowSvc.Flow) (env : FlowSvc.RunEnv) (cur : String) (k : Nat)
      (vars : List (String × Json)) (completed : List String) (bus : FlowSvc.BusState),
      FlowSvc.countKind .executionCancelled bus.log = 0 →
      FlowSvc.countKind .executionCompleted bus.log = 0 →
      FlowSvc.countKind .executionFailed bus.log = 0 →
      0 < FlowSvc.countKind .executionCancelled
        ((FlowSvc.runFrom flow env cur k vars completed bus fuel).2).log →
      FlowSvc.countKind .executionCompleted
          ((FlowSvc.runFrom flow env cur k vars completed bus fuel).2).log = 0 ∧
        FlowSvc.countKind .executionFailed
          ((FlowSvc.runFrom flow env cur k vars completed bus fuel).2).log = 0 := by
  intro fuel
  induction fuel with
  | zero =>
      intro flow env cur k vars completed bus h0 h1 h2 hc
      exact ⟨h1, h2⟩
  | succ n ih =>
      intro flow env cur k vars completed bus h0 h1 h2 hc
      rw [FlowSvc.runFrom] at hc ⊢
      cases hcc : env.cancelAt k with
      | true =>
          simp only [hcc, if_true, reduceIte]
          constructor <;>
            · rw [FlowSvc.persistAndBroadcast, countKind_append, countKind_single_ne]
              · simpa
              · simp
      | false =>
          simp only [hcc, Bool.false_eq_true, if_false, reduceIte] at hc ⊢
          cases hls : FlowSvc.lookupStep flow cur with
          | none =>
              simp only [hls] at hc ⊢
              exact ⟨h1, h2⟩
          | some step =>
              simp only [hls] at hc ⊢
              generalize hb1 : FlowSvc.persistAndBroadcast bus
                ⟨.stepStarted, some step.id, "Step " ++ step.name ++ " started"⟩ = bus1 at hc ⊢
              have hbus1 : ∀ kind, kind ≠ FlowSvc.FlowEventType.stepStarted →
                  FlowSvc.countKind kind bus1.log = FlowSvc.countKind kind bus.log := by
                intro kind hk
                rw [← hb1, FlowSvc.persistAndBroadcast]
                rw [countKind_append, countKind_single_ne]
                · omega
                · simpa using fun hh => absurd hh.symm hk
              generalize hsr : FlowSvc.executeStep env step k vars bus1 = sr at hc ⊢
              have hsrc : ∀ kind, kind ≠ FlowSvc.FlowEventType.approvalRequired →
                  kind ≠ FlowSvc.FlowEventType.stepStarted →
                  FlowSvc.countKind kind sr.2.log = FlowSvc.countKind kind bus.log := by
                intro kind hk1 hk2
                rw [← hsr, executeStep_countKind env step k vars bus1 kind hk1, hbus1 kind hk2]
              cases hres : sr.1 with
              | ok result =>
                  simp only [hres] at hc ⊢
                  cases hsel : FlowSvc.selectNext step result with
                  | some nxt =>
                      simp only [hsel] at hc ⊢
                      apply ih
                      · rw [FlowSvc.persistAndBroadcast, countKind_append, countKind_single_ne]
                        · rw [hsrc _ (by simp) (by simp)]
                          omega
                        · simp
                      · rw [FlowSvc.persistAndBroadcast, countKind_append, countKind_single_ne]
                        · rw [hsrc _ (by simp) (by simp)]
                          omega
                        · simp
                      · rw [FlowSvc.persistAndBroadcast, countKind_append, countKind_single_ne]
                        · rw [hsrc _ (by simp) (by simp)]
                          omega
                        · simp
                      · exact hc
                  | none =>
                      simp only [hsel] at hc ⊢
                      exfalso
                      rw [FlowSvc.persistAndBroadcast, countKind_append,
                        FlowSvc.persistAndBroadcast, countKind_append] at hc
                      rw [countKind_single_ne _ _ (by simp),
                        countKind_single_ne _ _ (by simp)] at hc
                      rw [hsrc _ (by simp) (by simp)] at hc
                      omega
              | error e =>
                  simp only [hres] at hc ⊢
                  exfalso
                  rw [FlowSvc.persistAndBroadcast, countKind_append,
                    FlowSvc.persistAndBroadcast, countKind_append] at hc
                  rw [countKind_single_ne _ _ (by simp),
                    countKind_single_ne _ _ (by simp)] at hc
                  rw [hsrc _ (by simp) (by simp)] at hc
                  omega

/-- C4, witness for the amended theorem: a run that observes
cancellation at its first step boundary emits `ExecutionCancelled` and
no terminal completion or failure event. -/
theorem c4_witness :
    FlowSvc.countKind .executionCompleted
        ((FlowSvc.runFrom flowC4 envC4b "ap" 0 [] [] ⟨[], []⟩ 2).2).log = 0 ∧
      FlowSvc.countKind .executionFailed
        ((FlowSvc.runFrom flowC4 envC4b "ap" 0 [] [] ⟨[], []⟩ 2).2).log = 0 :=
  c4_cancel_amended 2 flowC4 envC4b "ap" 0 [] [] ⟨[], []⟩ rfl rfl rfl (by decide)

/-! ## C6 — retry policy -/

/-- C6, counterexample: a tool step with `retry_count = 3` whose
dispatch fails is not retried: the execution is marked failed after a
single `StepStarted`, with `StepFailed` and `ExecutionFailed` emitted
immediately. -/
theorem c6_counterexample :
    stepC6.retry_count = 3 ∧
    FlowSvc.runFlow flowC6 envC6 [] ⟨[], []⟩ 2 =
      (some "failed",
        ⟨[⟨.stepStarted, some "t", "Step t started"⟩,
          ⟨.stepFailed, some "t", "Step t failed: boom"⟩,
          ⟨.executionFailed, some "t", "Flow execution failed at step t"⟩], []⟩) :=
  ⟨rfl, rfl⟩

/-- C6, amended: the orchestrator performs no retries at all: whatever
a step's `retry_count`, a step failure (when cancellation was not
observed at the boundary) immediately marks the execution failed, and
the step is started exactly once more than in the starting log. -/
theorem c6_no_retry (flow : FlowSvc.Flow) (env : FlowSvc.RunEnv) (cur : String) (k : Nat)
    (vars : List (String × Json)) (completed : List String) (bus : FlowSvc.BusState)
    (fuel : Nat) (step : FlowSvc.FlowStep) (e : String)
    (hcc : env.cancelAt k = false)
    (hls : FlowSvc.lookupStep flow cur = some step)
    (herr : (FlowSvc.executeStep env step k vars (FlowSvc.persistAndBroadcast bus
      ⟨.stepStarted, some step.id, "Step " ++ step.name ++ " started"⟩)).1 = .error e) :
    (FlowSvc.runFrom flow env cur k vars completed bus (fuel + 1)).1 = some "failed" ∧
    FlowSvc.countKind .stepStarted
        ((FlowSvc.runFrom flow env cur k vars completed bus (fuel + 1)).2).log =
      FlowSvc.countKind .stepStarted bus.log + 1 := by
  rw [FlowSvc.runFrom]
  simp only [hcc, Bool.false_eq_true, if_false, reduceIte, hls]
  generalize hb1 : FlowSvc.persistAndBroadcast bus
    ⟨.stepStarted, some step.id, "Step " ++ step.name ++ " started"⟩ = bus1 at herr ⊢
  generalize hsr : FlowSvc.executeStep env step k vars bus1 = sr at herr ⊢
  cases hres : sr.1 with
  | ok result => rw [hres] at herr; cases herr
  | error e2 =>
      have he2 : e2 = e := by rw [hres] at herr; cases herr; rfl
      subst he2
      simp only [hres]
      refine ⟨by trivial, ?_⟩
      rw [FlowSvc.persistAndBroadcast, countKind_append,
        FlowSvc.persistAndBroadcast, countKind_append]
      rw [countKind_single_ne _ _ (by simp), countKind_single_ne _ _ (by simp)]
      have : FlowSvc.countKind .stepStarted sr.2.log =
          FlowSvc.countKind .stepStarted bus1.log := by
        rw [← hsr]
        exact executeStep_countKind env step k vars bus1 _ (by simp)
      rw [this, ← hb1, FlowSvc.persistAndBroadcast, countKind_append]
      simp [FlowSvc.countKind, List.countP_cons]

/-- C6, witness for the amended theorem, at the failing tool step with
`retry_count = 3`: the execution is marked failed immediately and the
step ran exactly once. -/
theorem c6_witness :
    (FlowSvc.runFrom flowC6 envC6 "t" 0 [] [] ⟨[], []⟩ 2).1 = some "failed" ∧
    FlowSvc.countKind .stepStarted
        ((FlowSvc.runFrom flowC6 envC6 "t" 0 [] [] ⟨[], []⟩ 2).2).log =
      FlowSvc.countKind .stepStarted (([] : List FlowSvc.FlowEvent)) + 1 :=
  c6_no_retry flowC6 envC6 "t" 0 [] [] ⟨[], []⟩ 1 stepC6 "boom" rfl rfl rfl

/-! ## C7 — event emission paths -/

/-- C7, counterexample: in a flow whose LLM step fires an `LlmResponse`
through the event-sink callback, a subscriber receives that event but
the durable event log never contains it, contradicting the claim that
emission appends such events to the durable log. -/
theorem c7_counterexample :
    FlowSvc.countKind .llmResponse
        ((FlowSvc.runFlow flowC7 envC7 [] ⟨[], [[]]⟩ 2).2.subs.headD []) = 1 ∧
    FlowSvc.countKind .llmResponse ((FlowSvc.runFlow flowC7 envC7 [] ⟨[], [[]]⟩ 2).2).log = 0 :=
  ⟨rfl, rfl⟩

/-- C7, amended: the persistent emission path (`emit` / `emit_event`)
appends the event to the durable log and broadcasts it to every current
subscriber (a subscriber at capacity drops it); the LLM-step callback
path broadcasts identically but never touches the durable log, so a
run started on a log without callback-kind events never persists any
`LlmResponse`, `LlmStreamingChunk`, `ToolCallStarted`,
`ToolCallCompleted` or `StepProgress` event. -/
theorem c7_emit_amended :
    (∀ (s : FlowSvc.BusState) (e : FlowSvc.FlowEvent),
      (FlowSvc.persistAndBroadcast s e).log = s.log ++ [e] ∧
      (FlowSvc.persistAndBroadcast s e).subs =
        s.subs.map (fun q => if q.length < 256 then q ++ [e] else q) ∧
      (FlowSvc.broadcastEvent s e).log = s.log ∧
      (FlowSvc.broadcastEvent s e).subs =
        s.subs.map (fun q => if q.length < 256 then q ++ [e] else q)) ∧
    (∀ (fuel : Nat) (flow : FlowSvc.Flow) (env : FlowSvc.RunEnv) (cur : String) (k : Nat)
      (vars : List (String × Json)) (completed : List String) (bus : FlowSvc.BusState),
      FlowSvc.countCallback bus.log = 0 →
      FlowSvc.countCallback ((FlowSvc.runFrom flow env cur k vars completed bus fuel).2).log = 0) := by
  constructor
  · intro s e
    exact ⟨rfl, rfl, rfl, rfl⟩
  · intro fuel
    induction fuel with
    | zero => intro flow env cur k vars completed bus h0; exact h0
    | succ n ih =>
        intro flow env cur k vars completed bus h0
        rw [FlowSvc.runFrom]
        cases hcc : env.cancelAt k with
        | true =>
            simp only [hcc, if_true, reduceIte]
            rw [FlowSvc.persistAndBroadcast, countCallback_append,
              countCallback_single _ (by rfl)]
            omega
        | false =>
            simp only [hcc, Bool.false_eq_true, if_false, reduceIte]
            cases hls : FlowSvc.lookupStep flow cur with
            | none => simp only [hls]; exact h0
            | some step =>
                simp only [hls]
                generalize hb1 : FlowSvc.persistAndBroadcast bus
                  ⟨.stepStarted, some step.id, "Step " ++ step.name ++ " started"⟩ = bus1
                have hcb1 : FlowSvc.countCallback bus1.log = 0 := by
                  rw [← hb1, FlowSvc.persistAndBroadcast, countCallback_append,
                    countCallback_single _ (by rfl)]
                  omega
                generalize hsr : FlowSvc.executeStep env step k vars bus1 = sr
                have hcsr : FlowSvc.countCallback sr.2.log = 0 := by
                  rw [← hsr, executeStep_countCallback, hcb1]
                cases hres : sr.1 with
                | ok result =>
                    simp only [hres]
                    cases hsel : FlowSvc.selectNext step result with
                    | some nxt =>
                        simp only [hsel]
                        apply ih
                        rw [FlowSvc.persistAndBroadcast, countCallback_append,
                          countCallback_single _ (by rfl)]
                        omega
                    | none =>
                        simp only [hsel]
                        rw [FlowSvc.persistAndBroadcast, countCallback_append,
                          FlowSvc.persistAndBroadcast, countCallback_append,
                          countCallback_single _ (by rfl), countCallback_single _ (by rfl)]
                        omega
                | error e =>
                    simp only [hres]
                    rw [FlowSvc.persistAndBroadcast, countCallback_append,
                      FlowSvc.persistAndBroadcast, countCallback_append,
                      countCallback_single _ (by rfl), countCallback_single _ (by rfl)]
                    omega

/-- C7, witness for the amended theorem: after the LLM-step run that
broadcast an `LlmResponse`, the durable log still carries no
callback-kind event. -/
theorem c7_witness :
    FlowSvc.countCallback
      ((FlowSvc.runFrom flowC7 envC7 "l" 0 [] [] ⟨[], [[]]⟩ 2).2).log = 0 :=
  c7_emit_amended.2 2 flowC7 envC7 "l" 0 [] [] ⟨[], [[]]⟩ rfl

/-! ## C1 — step-level success of execute_agent_step -/

/-- C1, counterexample: an LLM whose initial call succeeds with a tool
call and whose follow-up call fails.  The loop breaks on the failed
follow-up call, yet the returned outcome still carries
`success: true`, so the step-level flag is NOT `true iff the final LLM
call succeeded`. -/
theorem c1_counterexample :
    ((Agent.executeAgentStep envC1 "a" "d" (Json.obj []) none).1).get "success" =
      some (.bool true) ∧
    (Agent.agentLoopOut envC1 agentC1 "d" (Json.obj []) none).resp.success = false :=
  ⟨rfl, rfl⟩

/-- C1, amended: the step-level `success` of the returned outcome is
true iff the INITIAL LLM call succeeded; neither individual tool
failures nor a failed follow-up LLM call inside the tool loop flip it,
and every tool result (failures included) is visible in
`tool_results`. -/
theorem c1_success_amended (env : Agent.AgentEnv) (agent : Agent.AgentDoc)
    (agent_id desc : String) (params : Json) (hist : Option (List Agent.LLMMessage))
    (hA : env.getAgent agent_id = some agent) (hL : env.llmFound agent.llm_id = true) :
    ((Agent.executeAgentStep env agent_id desc params hist).1).get "success" =
      some (.bool ((env.llm (Agent.initialMessages agent desc params hist)).success)) ∧
    ((Agent.executeAgentStep env agent_id desc params hist).1).get "tool_results" =
      (if (env.llm (Agent.initialMessages agent desc params hist)).success then
        some (.arr (Agent.agentLoopOut env agent desc params hist).results)
      else none) := by
  cases hS : (env.llm (Agent.initialMessages agent desc params hist)).success with
  | false =>
      simp only [Agent.executeAgentStep, hA, hL, hS, Bool.false_eq_true, if_false,
        Bool.true_eq_false, reduceIte]
      exact ⟨rfl, rfl⟩
  | true =>
      simp only [Agent.executeAgentStep, hA, hL, hS, Bool.true_eq_false, if_true, reduceIte]
      exact ⟨rfl, rfl⟩

/-- C1, witness for the amended theorem, at the break-on-failure
environment: the outcome's `success` equals the initial call's success
and the failed tool result is listed. -/
theorem c1_witness :
    ((Agent.executeAgentStep envC1 "a" "d" (Json.obj []) none).1).get "success" =
      some (.bool ((envC1.llm (Agent.initialMessages agentC1 "d" (Json.obj []) none)).success)) ∧
    ((Agent.executeAgentStep envC1 "a" "d" (Json.obj []) none).1).get "tool_results" =
      (if (envC1.llm (Agent.initialMessages agentC1 "d" (Json.obj []) none)).success then
        some (.arr (Agent.agentLoopOut envC1 agentC1 "d" (Json.obj []) none).results)
      else none) :=
  c1_success_amended envC1 agentC1 "a" "d" (Json.obj []) none rfl rfl

/-! ## C5 — tool-use loop ceiling -/

/-- The tool loop makes at most `fuel` follow-up LLM calls beyond the
ones already accounted. -/
theorem toolLoop_calls_le (env : Agent.AgentEnv) (name : String) :
    ∀ (fuel : Nat) (msgs : List Agent.LLMMessage) (cur : Agent.LLMApiResponse)
      (round : Nat) (aR : List Json) (aE : List (String × Json)) (aC : Nat),
      (Agent.toolLoop env name fuel msgs cur round aR aE aC).calls ≤ aC + fuel := by
  intro fuel
  induction fuel with
  | zero =>
      intro msgs cur round aR aE aC
      simp [Agent.toolLoop]
  | succ n ih =>
      intro msgs cur round aR aE aC
      rw [Agent.toolLoop]
      split
      · dsimp only
        split
        · exact le_trans (ih _ _ _ _ _ _) (by omega)
        · show aC + 1 ≤ aC + (n + 1)
          omega
      · show aC ≤ aC + (n + 1)
        omega

/-- C5: the tool-use loop performs at most `MAX_TOOL_ROUNDS = 20`
follow-up LLM calls and terminates (it is a total function) no matter
how many tool calls the LLM keeps emitting, and the outcome's `content`
is the content of the last LLM response the loop stopped on. -/
theorem c5_tool_loop_ceiling (env : Agent.AgentEnv) (agent : Agent.AgentDoc)
    (agent_id desc : String) (params : Json) (hist : Option (List Agent.LLMMessage))
    (hA : env.getAgent agent_id = some agent) (hL : env.llmFound agent.llm_id = true)
    (hS : (env.llm (Agent.initialMessages agent desc params hist)).success = true) :
    (Agent.agentLoopOut env agent desc params hist).calls ≤ 20 ∧
    ((Agent.executeAgentStep env agent_id desc params hist).1).get "content" =
      some (.str (Agent.agentLoopOut env agent desc params hist).resp.content) := by
  constructor
  · have h := toolLoop_calls_le env agent.name 20
      (Agent.initialMessages agent desc params hist)
      (env.llm (Agent.initialMessages agent desc params hist)) 0 [] [] 0
    simpa [Agent.agentLoopOut] using h
  · simp only [Agent.executeAgentStep, hA, hL, hS, Bool.true_eq_false, reduceIte]
    rfl

/-- C5, witness: an LLM that emits a tool call on every response drives
the loop to the ceiling; the bound and the returned content hold at that
environment. -/
theorem c5_witness :
    (Agent.agentLoopOut envC5 agentC1 "d" (Json.obj []) none).calls ≤ 20 ∧
    ((Agent.executeAgentStep envC5 "a" "d" (Json.obj []) none).1).get "content" =
      some (.str (Agent.agentLoopOut envC5 agentC1 "d" (Json.obj []) none).resp.content) :=
  c5_tool_loop_ceiling envC5 agentC1 "a" "d" (Json.obj []) none rfl rfl rfl

/-! ## Base64 codec lemmas -/

/-- Decoding inverts the alphabet map. -/
theorem decChar_encChar : ∀ v : Nat, v < 64 → B64.decChar (B64.encChar v) = some v := by
  decide

/-- No alphabet character is the padding character. -/
theorem encChar_ne_pad : ∀ v : Nat, v < 64 → B64.encChar v ≠ '=' := by decide

/-- Alphabet characters are ASCII. -/
theorem encChar_ascii : ∀ v : Nat, v < 64 → (B64.encChar v).toNat < 128 := by decide

/-- A successfully decoded character is a sextet and re-encodes to the
same character: the alphabet map accepts only its own image. -/
theorem decChar_canon (c : Char) (s : Nat) (h : B64.decChar c = some s) :
    s < 64 ∧ B64.encChar s = c := by
  unfold B64.decChar at h
  dsimp only at h
  split_ifs at h with h1 h2 h3 h4 h5
  · injection h with h
    subst h
    refine ⟨by omega, ?_⟩
    unfold B64.encChar
    rw [if_pos (by omega), show c.toNat - 65 + 65 = c.toNat from by omega]
    exact Char.ofNat_toNat c
  · injection h with h
    subst h
    refine ⟨by omega, ?_⟩
    unfold B64.encChar
    rw [if_neg (by omega), if_pos (by omega),
      show c.toNat - 71 + 71 = c.toNat from by omega]
    exact Char.ofNat_toNat c
  · injection h with h
    subst h
    refine ⟨by omega, ?_⟩
    unfold B64.encChar
    rw [if_neg (by omega), if_neg (by omega), if_pos (by omega),
      show c.toNat + 4 - 4 = c.toNat from by omega]
    exact Char.ofNat_toNat c
  · injection h with h
    subst h
    refine ⟨by omega, ?_⟩
    unfold B64.encChar
    rw [if_neg (by omega), if_neg (by omega), if_neg (by omega), if_pos (by omega),
      ← h4]
    exact Char.ofNat_toNat c
  · injection h with h
    subst h
    refine ⟨by omega, ?_⟩
    unfold B64.encChar
    rw [if_neg (by omega), if_neg (by omega), if_neg (by omega), if_neg (by omega), ← h5]
    exact Char.ofNat_toNat c

/-- Strict decoding inverts encoding on byte lists. -/
theorem decode_encode : ∀ (d : List Nat), allBytes d → B64.decode (B64.encode d) = some d
  | [], _ => rfl
  | [a], h => by
      have ha : a < 256 := h a (by simp)
      show B64.decode [B64.encChar (a / 4), B64.encChar (a % 4 * 16), '=', '='] = some [a]
      rw [B64.decode, decChar_encChar _ (by omega), decChar_encChar _ (by omega)]
      simp [show a % 4 * 16 % 16 = 0 from by omega]
      omega
  | [a, b], h => by
      have ha : a < 256 := h a (by simp)
      have hb : b < 256 := h b (by simp)
      show B64.decode [B64.encChar (a / 4), B64.encChar (a % 4 * 16 + b / 16),
        B64.encChar (b % 16 * 4), '='] = some [a, b]
      rw [B64.decode, decChar_encChar _ (by omega), decChar_encChar _ (by omega)]
      simp [encChar_ne_pad (b % 16 * 4) (by omega),
        decChar_encChar (b % 16 * 4) (by omega),
        show b % 16 * 4 % 4 = 0 from by omega]
      omega
  | a :: b :: c :: rest, h => by
      have ha : a < 256 := h a (by simp)
      have hb : b < 256 := h b (by simp)
      have hc : c < 256 := h c (by simp)
      have hrest : allBytes rest := fun x hx => h x (by simp [hx])
      show B64.decode (B64.encChar (a / 4) :: B64.encChar (a % 4 * 16 + b / 16)
          :: B64.encChar (b % 16 * 4 + c / 64) :: B64.encChar (c % 64)
          :: B64.encode rest) = some (a :: b :: c :: rest)
      rw [B64.decode, decChar_encChar _ (by omega), decChar_encChar _ (by omega)]
      simp [encChar_ne_pad (b % 16 * 4 + c / 64) (by omega),
        decChar_encChar (b % 16 * 4 + c / 64) (by omega),
        encChar_ne_pad (c % 64) (by omega),
        decChar_encChar (c % 64) (by omega),
        decode_encode rest hrest]
      omega

/-- Every character of an encoding is ASCII. -/
theorem encode_ascii : ∀ (d : List Nat), allBytes d →
    ∀ ch ∈ B64.encode d, ch.toNat < 128
  | [], _ => by intro ch hch; cases hch
  | [a], h => by
      have ha : a < 256 := h a (by simp)
      intro ch hch
      rcases List.mem_cons.mp hch with rfl | hch
      · exact encChar_ascii _ (by omega)
      rcases List.mem_cons.mp hch with rfl | hch
      · exact encChar_ascii _ (by omega)
      rcases List.mem_cons.mp hch with rfl | hch
      · decide
      rcases List.mem_cons.mp hch with rfl | hch
      · decide
      cases hch
  | [a, b], h => by
      have ha : a < 256 := h a (by simp)
      have hb : b < 256 := h b (by simp)
      intro ch hch
      rcases List.mem_cons.mp hch with rfl | hch
      · exact encChar_ascii _ (by omega)
      rcases List.mem_cons.mp hch with rfl | hch
      · exact encChar_ascii _ (by omega)
      rcases List.mem_cons.mp hch with rfl | hch
      · exact encChar_ascii _ (by omega)
      rcases List.mem_cons.mp hch with rfl | hch
      · decide
      cases hch
  | a :: b :: c :: rest, h => by
      have ha : a < 256 := h a (by simp)
      have hb : b < 256 := h b (by simp)
      have hc : c < 256 := h c (by simp)
      have hrest : allBytes rest := fun x hx => h x (by simp [hx])
      intro ch hch
      rcases List.mem_cons.mp hch with rfl | hch
      · exact encChar_ascii _ (by omega)
      rcases List.mem_cons.mp hch with rfl | hch
      · exact encChar_ascii _ (by omega)
      rcases List.mem_cons.mp hch with rfl | hch
      · exact encChar_ascii _ (by omega)
      rcases List.mem_cons.mp hch with rfl | hch
      · exact encChar_ascii _ (by omega)
      exact encode_ascii rest hrest ch hch

/-- Strict decoding accepts only canonical encodings: a successful
decode re-encodes to the exact input, and the decoded values are
bytes. -/
theorem decode_canon : ∀ (t : List Char) (d : List Nat), B64.decode t = some d →
    B64.encode d = t ∧ allBytes d
  | [], d, h => by
      injection h with h
      subst h
      exact ⟨rfl, fun x hx => by cases hx⟩
  | [c1], d, h => by cases h
  | [c1, c2], d, h => by cases h
  | [c1, c2, c3], d, h => by cases h
  | c1 :: c2 :: c3 :: c4 :: rest, d, h => by
      rw [B64.decode] at h
      cases hd1 : B64.decChar c1 with
      | none => rw [hd1] at h; cases h
      | some s1 =>
      cases hd2 : B64.decChar c2 with
      | none => rw [hd1, hd2] at h; cases h
      | some s2 =>
      rw [hd1, hd2] at h
      dsimp only at h
      obtain ⟨hs1, he1⟩ := decChar_canon c1 s1 hd1
      obtain ⟨hs2, he2⟩ := decChar_canon c2 s2 hd2
      by_cases hc3 : c3 = '='
      · rw [if_pos hc3] at h
        by_cases hcond : c4 = '=' ∧ rest = [] ∧ s2 % 16 = 0
        · rw [if_pos hcond] at h
          obtain ⟨hc4, hrest, htb⟩ := hcond
          injection h with h
          subst h
          constructor
          · show B64.encode [s1 * 4 + s2 / 16] = _
            rw [B64.encode]
            have e1 : (s1 * 4 + s2 / 16) / 4 = s1 := by omega
            have e2 : (s1 * 4 + s2 / 16) % 4 * 16 = s2 := by omega
            rw [e1, e2, he1, he2, hc3, hc4, hrest]
          · intro x hx
            simp at hx
            subst hx
            omega
        · rw [if_neg hcond] at h
          cases h
      · rw [if_neg hc3] at h
        cases hd3 : B64.decChar c3 with
        | none => rw [hd3] at h; cases h
        | some s3 =>
        rw [hd3] at h
        dsimp only at h
        obtain ⟨hs3, he3⟩ := decChar_canon c3 s3 hd3
        by_cases hc4 : c4 = '='
        · rw [if_pos hc4] at h
          by_cases hcond : rest = [] ∧ s3 % 4 = 0
          · rw [if_pos hcond] at h
            obtain ⟨hrest, htb⟩ := hcond
            injection h with h
            subst h
            constructor
            · show B64.encode [s1 * 4 + s2 / 16, s2 % 16 * 16 + s3 / 4] = _
              rw [B64.encode]
              have e1 : (s1 * 4 + s2 / 16) / 4 = s1 := by omega
              have e2 : (s1 * 4 + s2 / 16) % 4 * 16 + (s2 % 16 * 16 + s3 / 4) / 16 = s2 := by
                omega
              have e3 : (s2 % 16 * 16 + s3 / 4) % 16 * 4 = s3 := by omega
              rw [e1, e2, e3, he1, he2, he3, hc4, hrest]
            · intro x hx
              simp at hx
              rcases hx with rfl | rfl
              · omega
              · omega
          · rw [if_neg hcond] at h
            cases h
        · rw [if_neg hc4] at h
          cases hd4 : B64.decChar c4 with
          | none => rw [hd4] at h; cases h
          | some s4 =>
          rw [hd4] at h
          dsimp only at h
          obtain ⟨hs4, he4⟩ := decChar_canon c4 s4 hd4
          cases hrec : B64.decode rest with
          | none => rw [hrec] at h; cases h
          | some dr =>
          rw [hrec] at h
          have h := Option.some.inj h
          subst h
          obtain ⟨hencr, hbr⟩ := decode_canon rest dr hrec
          constructor
          · show B64.encode ((s1 * 4 + s2 / 16) :: (s2 % 16 * 16 + s3 / 4)
              :: (s3 % 4 * 64 + s4) :: dr) = _
            rw [B64.encode]
            have e1 : (s1 * 4 + s2 / 16) / 4 = s1 := by omega
            have e2 : (s1 * 4 + s2 / 16) % 4 * 16 + (s2 % 16 * 16 + s3 / 4) / 16 = s2 := by
              omega
            have e3 : (s2 % 16 * 16 + s3 / 4) % 16 * 4 + (s3 % 4 * 64 + s4) / 64 = s3 := by
              omega
            have e4 : (s3 % 4 * 64 + s4) % 64 = s4 := by omega
            rw [e1, e2, e3, e4, he1, he2, he3, he4, hencr]
          · intro x hx
            simp only [List.mem_cons] at hx
            rcases hx with rfl | rfl | rfl | hx
            · omega
            · omega
            · omega
            · exact hbr x hx

/-! ## CBC, PKCS7 and chunking lemmas -/

/-- XOR of equal-length byte lists cancels itself on the left. -/
theorem xorBytes_self_cancel : ∀ (a b : List Nat), a.length = b.length →
    xorBytes a (xorBytes a b) = b
  | [], [], _ => rfl
  | [], _ :: _, h => by cases h
  | _ :: _, [], h => by cases h
  | x :: xs, y :: ys, h => by
      simp only [xorBytes, List.zipWith_cons_cons] at *
      rw [Nat.xor_cancel_left]
      have := xorBytes_self_cancel xs ys (by simpa using h)
      simp only [xorBytes] at this
      rw [this]

/-- XOR keeps bytes bytes. -/
theorem xorBytes_allBytes : ∀ (a b : List Nat), allBytes a → allBytes b →
    allBytes (xorBytes a b)
  | [], _, _, _ => fun x hx => by cases hx
  | _ :: _, [], _, _ => fun x hx => by cases hx
  | x :: xs, y :: ys, ha, hb => by
      intro z hz
      simp only [xorBytes, List.zipWith_cons_cons] at hz
      rcases List.mem_cons.mp hz with rfl | hz
      · have hx : x < 256 := ha x (by simp)
        have hy : y < 256 := hb y (by simp)
        exact Nat.xor_lt_two_pow (n := 8) hx hy
      · exact xorBytes_allBytes xs ys (fun u hu => ha u (by simp [hu]))
          (fun u hu => hb u (by simp [hu])) z hz

/-- XOR length is the minimum of the operand lengths. -/
theorem xorBytes_length (a b : List Nat) : (xorBytes a b).length = min a.length b.length := by
  simp [xorBytes]

/-- The chunking worker ignores any sufficient fuel amount. -/
theorem chunksGo_fuel : ∀ (f1 f2 : Nat) (l : List Nat), l.length ≤ f1 → l.length ≤ f2 →
    chunksGo f1 l = chunksGo f2 l
  | f1, f2, [], _, _ => by cases f1 <;> cases f2 <;> rfl
  | 0, _, x :: xs, h1, _ => by simp at h1
  | _ + 1, 0, x :: xs, _, h2 => by simp at h2
  | f1 + 1, f2 + 1, x :: xs, h1, h2 => by
      show ((x :: xs).take 16) :: chunksGo f1 ((x :: xs).drop 16) =
        ((x :: xs).take 16) :: chunksGo f2 ((x :: xs).drop 16)
      simp only [List.length_cons] at h1 h2
      have hl : ((x :: xs).drop 16).length ≤ f1 := by
        simp only [List.length_drop, List.length_cons]
        omega
      have hl2 : ((x :: xs).drop 16).length ≤ f2 := by
        simp only [List.length_drop, List.length_cons]
        omega
      rw [chunksGo_fuel f1 f2 _ hl hl2]

/-- Unfolding rule for `chunks16` on a non-empty list. -/
theorem chunks16_cons (l : List Nat) (h : l ≠ []) :
    chunks16 l = l.take 16 :: chunks16 (l.drop 16) := by
  cases l with
  | nil => exact absurd rfl h
  | cons x xs =>
      show chunksGo (xs.length + 1) (x :: xs) = _
      rw [show chunksGo (xs.length + 1) (x :: xs) =
        ((x :: xs).take 16) :: chunksGo xs.length ((x :: xs).drop 16) from rfl]
      unfold chunks16
      rw [chunksGo_fuel xs.length ((x :: xs).drop 16).length ((x :: xs).drop 16)
        (by simp) (le_refl _)]

/-- Chunking then flattening restores the list. -/
theorem flatten_chunks16 (l : List Nat) : (chunks16 l).flatten = l := by
  by_cases h : l = []
  · subst h; rfl
  · rw [chunks16_cons l h, List.flatten_cons, flatten_chunks16 (l.drop 16)]
    exact List.take_append_drop 16 l
termination_by l.length
decreasing_by
  simp only [List.length_drop]
  have : 0 < l.length := List.length_pos.mpr h
  omega

/-- On a list whose length is a positive multiple of 16, every chunk has
length 16 and carries bytes when the list does. -/
theorem chunks16_blocks (l : List Nat) (hm : l.length % 16 = 0) (hb : allBytes l) :
    ∀ b ∈ chunks16 l, b.length = 16 ∧ allBytes b := by
  by_cases h : l = []
  · subst h; intro b hbm; cases hbm
  · intro b hbm
    rw [chunks16_cons l h] at hbm
    have hlen : 0 < l.length := List.length_pos.mpr h
    rcases List.mem_cons.mp hbm with rfl | hbm
    · constructor
      · rw [List.length_take]
        omega
      · intro x hx
        exact hb x (List.mem_of_mem_take hx)
    · exact chunks16_blocks (l.drop 16)
        (by simp only [List.length_drop]; omega)
        (fun x hx => hb x (List.mem_of_mem_drop hx)) b hbm
termination_by l.length
decreasing_by
  simp only [List.length_drop]
  have : 0 < l.length := List.length_pos.mpr h
  omega

/-- Chunking the flattening of 16-byte blocks restores the blocks. -/
theorem chunks16_flatten_blocks : ∀ (bs : List (List Nat)),
    (∀ b ∈ bs, b.length = 16) → chunks16 bs.flatten = bs
  | [], _ => rfl
  | b :: bs, h => by
      have hb : b.length = 16 := h b (by simp)
      have hbs : ∀ x ∈ bs, x.length = 16 := fun x hx => h x (by simp [hx])
      rw [List.flatten_cons]
      have hne : b ++ bs.flatten ≠ [] := by
        intro hh
        have := congrArg List.length hh
        simp [hb] at this
      rw [chunks16_cons _ hne]
      rw [show (b ++ bs.flatten).take 16 = b from by rw [← hb]; exact List.take_left b _]
      rw [show (b ++ bs.flatten).drop 16 = bs.flatten from by rw [← hb]; exact List.drop_left b _]
      rw [chunks16_flatten_blocks bs hbs]

/-- Flattening 16-byte blocks yields 16 bytes per block. -/
theorem flatten_blocks_length : ∀ (bs : List (List Nat)), (∀ b ∈ bs, b.length = 16) →
    bs.flatten.length = 16 * bs.length
  | [], _ => rfl
  | b :: bs, h => by
      rw [List.flatten_cons, List.length_append, h b (by simp),
        flatten_blocks_length bs (fun x hx => h x (by simp [hx]))]
      simp
      ring

/-- Flattening byte blocks yields bytes. -/
theorem flatten_blocks_bytes (bs : List (List Nat)) (h : ∀ b ∈ bs, allBytes b) :
    allBytes bs.flatten := by
  intro x hx
  rcases List.mem_flatten.mp hx with ⟨b, hb, hxb⟩
  exact h b hb x hxb

/-- CBC encryption of 16-byte byte blocks produces 16-byte byte blocks
that CBC decryption inverts. -/
theorem cbc_roundtrip (E D : List Nat → List Nat)
    (hE : ∀ b, b.length = 16 → allBytes b →
      (E b).length = 16 ∧ allBytes (E b) ∧ D (E b) = b) :
    ∀ (bs : List (List Nat)) (prev : List Nat),
      (∀ b ∈ bs, b.length = 16 ∧ allBytes b) → prev.length = 16 → allBytes prev →
      (∀ cb ∈ cbcEncBlocks E prev bs, cb.length = 16 ∧ allBytes cb) ∧
      cbcDecBlocks D prev (cbcEncBlocks E prev bs) = bs
  | [], prev, _, _, _ => ⟨fun cb hcb => absurd hcb (List.not_mem_nil cb), rfl⟩
  | b :: bs, prev, h, hp, hpB => by
      obtain ⟨hbl, hbB⟩ := h b (by simp)
      have hxl : (xorBytes prev b).length = 16 := by
        rw [xorBytes_length, hp, hbl]
        simp
      have hxB : allBytes (xorBytes prev b) := xorBytes_allBytes prev b hpB hbB
      obtain ⟨hcl, hcB, hinv⟩ := hE (xorBytes prev b) hxl hxB
      obtain ⟨ih1, ih2⟩ := cbc_roundtrip E D hE bs (E (xorBytes prev b))
        (fun x hx => h x (by simp [hx])) hcl hcB
      constructor
      · intro cb hcb
        rcases List.mem_cons.mp hcb with rfl | hcb
        · exact ⟨hcl, hcB⟩
        · exact ih1 cb hcb
      · show xorBytes prev (D (E (xorBytes prev b))) :: _ = _
        rw [hinv, xorBytes_self_cancel prev b (by rw [hp, hbl]), ih2]

/-- PKCS7 unpadding inverts PKCS7 padding. -/
theorem pkcs7Unpad_pad (m : List Nat) : pkcs7Unpad (pkcs7Pad m) = some m := by
  unfold pkcs7Pad pkcs7Unpad
  have hp1 : 1 ≤ 16 - m.length % 16 := by omega
  have hp16 : 16 - m.length % 16 ≤ 16 := by omega
  set p := 16 - m.length % 16 with hp
  have hlen : (m ++ List.replicate p p).length = m.length + p := by simp
  have hgd : (m ++ List.replicate p p).getD ((m ++ List.replicate p p).length - 1) 0 = p := by
    rw [hlen, List.getD_append_right m _ 0 (m.length + p - 1) (by omega)]
    have : m.length + p - 1 - m.length = p - 1 := by omega
    rw [this, List.getD_eq_getElem?_getD, List.getElem?_replicate, if_pos (by omega)]
    rfl
  rw [hgd]
  rw [if_neg (by rw [hlen]; omega)]
  have hdrop : (m ++ List.replicate p p).drop ((m ++ List.replicate p p).length - p) =
      List.replicate p p := by
    rw [hlen, show m.length + p - p = m.length from by omega]
    exact List.drop_left m _
  have htake : (m ++ List.replicate p p).take ((m ++ List.replicate p p).length - p) = m := by
    rw [hlen, show m.length + p - p = m.length from by omega]
    exact List.take_left m _
  rw [hdrop, htake, if_pos (by simp [List.all_eq_true, List.mem_replicate])]

/-- PKCS7 padding yields a non-empty byte list whose length is a
multiple of 16. -/
theorem pkcs7Pad_props (m : List Nat) (hm : allBytes m) :
    (pkcs7Pad m).length % 16 = 0 ∧ (pkcs7Pad m).length = m.length + (16 - m.length % 16) ∧
      allBytes (pkcs7Pad m) := by
  refine ⟨?_, by simp [pkcs7Pad], ?_⟩
  · simp only [pkcs7Pad, List.length_append, List.length_replicate]
    omega
  · intro x hx
    simp only [pkcs7Pad] at hx
    rcases List.mem_append.mp hx with hx | hx
    · exact hm x hx
    · simp only [List.mem_replicate] at hx
      omega

/-- The big-endian timestamp encoding is eight bytes. -/
theorem beBytes8_props (ts : Nat) : (beBytes8 ts).length = 8 ∧ allBytes (beBytes8 ts) := by
  constructor
  · simp [beBytes8]
  · intro x hx
    simp only [beBytes8, List.mem_map] at hx
    obtain ⟨i, _, rfl⟩ := hx
    exact Nat.mod_lt _ (by norm_num)

/-! ## Fernet framing lemmas and main cipher theorems -/

/-- The ciphertext of an encryption is a byte string of positive length
divisible by 16, and its 16-byte chunks are exactly the CBC blocks. -/
theorem fernetCt_props (P : FernetPrims) (c : FernetCipher) (iv m : List Nat)
    (hP : GoodPrims P c) (hiv : iv.length = 16) (hivB : allBytes iv) (hm : allBytes m) :
    16 ≤ (fernetCt P c iv m).length ∧ (fernetCt P c iv m).length % 16 = 0 ∧
      allBytes (fernetCt P c iv m) ∧
      chunks16 (fernetCt P c iv m) =
        cbcEncBlocks (P.aesEncBlock c.encryption_key) iv (chunks16 (pkcs7Pad m)) := by
  obtain ⟨hpadm, hpadlen, hpadB⟩ := pkcs7Pad_props m hm
  have hblocks := chunks16_blocks (pkcs7Pad m) hpadm hpadB
  have hcbc := cbc_roundtrip (P.aesEncBlock c.encryption_key)
    (P.aesDecBlock c.encryption_key) hP.1 (chunks16 (pkcs7Pad m)) iv hblocks hiv hivB
  have hbl : ∀ b ∈ cbcEncBlocks (P.aesEncBlock c.encryption_key) iv
      (chunks16 (pkcs7Pad m)), b.length = 16 := fun b hb => (hcbc.1 b hb).1
  have hlen : (fernetCt P c iv m).length = 16 *
      (cbcEncBlocks (P.aesEncBlock c.encryption_key) iv (chunks16 (pkcs7Pad m))).length :=
    flatten_blocks_length _ hbl
  have hpadne : pkcs7Pad m ≠ [] := by
    intro hh
    have := congrArg List.length hh
    rw [hpadlen] at this
    simp at this
    omega
  have hpos : 0 < (cbcEncBlocks (P.aesEncBlock c.encryption_key) iv
      (chunks16 (pkcs7Pad m))).length := by
    rw [chunks16_cons _ hpadne]
    simp [cbcEncBlocks]
  refine ⟨by omega, by omega, ?_, chunks16_flatten_blocks _ hbl⟩
  exact flatten_blocks_bytes _ (fun b hb => (hcbc.1 b hb).2)

/-- Framing decomposition of the token bytes: they are bytes, at least
73 of them, start with the version byte, split into the signed payload
and its MAC, and the payload yields back the IV and the ciphertext at
the offsets `decrypt` uses. -/
theorem fernetTokenBytes_decomp (P : FernetPrims) (c : FernetCipher) (ts : Nat)
    (iv m : List Nat) (hP : GoodPrims P c) (hiv : iv.length = 16) (hivB : allBytes iv)
    (hm : allBytes m) :
    allBytes (fernetTokenBytes P c ts iv m) ∧
    73 ≤ (fernetTokenBytes P c ts iv m).length ∧
    (fernetTokenBytes P c ts iv m).headD 0 = 128 ∧
    (fernetTokenBytes P c ts iv m).take ((fernetTokenBytes P c ts iv m).length - 32) =
      fernetPayload P c ts iv m ∧
    (fernetTokenBytes P c ts iv m).drop ((fernetTokenBytes P c ts iv m).length - 32) =
      P.hmacSha256 c.signing_key (fernetPayload P c ts iv m) ∧
    ((fernetPayload P c ts iv m).drop 9).take 16 = iv ∧
    (fernetPayload P c ts iv m).drop 25 = fernetCt P c iv m := by
  obtain ⟨hct16, hctm, hctB, hctchunks⟩ := fernetCt_props P c iv m hP hiv hivB hm
  obtain ⟨hbl8, hbB8⟩ := beBytes8_props ts
  obtain ⟨hmacl, hmacB⟩ := hP.2 (fernetPayload P c ts iv m)
  have hplB : allBytes (fernetPayload P c ts iv m) := by
    intro x hx
    rcases List.mem_cons.mp hx with rfl | hx
    · omega
    · rcases List.mem_append.mp hx with hx | hx
      · rcases List.mem_append.mp hx with hx | hx
        · exact hbB8 x hx
        · exact hivB x hx
      · exact hctB x hx
  have hpll : (fernetPayload P c ts iv m).length = 25 + (fernetCt P c iv m).length := by
    simp [fernetPayload, hbl8, hiv]
    omega
  have htl : (fernetTokenBytes P c ts iv m).length =
      (fernetPayload P c ts iv m).length + 32 := by
    simp [fernetTokenBytes, hmacl]
  constructor
  · intro x hx
    rcases List.mem_append.mp hx with hx | hx
    · exact hplB x hx
    · exact hmacB x hx
  refine ⟨by omega, rfl, ?_, ?_, ?_, ?_⟩
  · show (fernetPayload P c ts iv m ++ _).take _ = _
    rw [show (fernetTokenBytes P c ts iv m).length - 32 =
      (fernetPayload P c ts iv m).length from by omega]
    exact List.take_left _ _
  · show (fernetPayload P c ts iv m ++ _).drop _ = _
    rw [show (fernetTokenBytes P c ts iv m).length - 32 =
      (fernetPayload P c ts iv m).length from by omega]
    exact List.drop_left _ _
  · show ((128 :: (beBytes8 ts ++ iv ++ fernetCt P c iv m)).drop 9).take 16 = iv
    rw [show (128 : Nat) :: (beBytes8 ts ++ iv ++ fernetCt P c iv m) =
      (128 :: beBytes8 ts) ++ (iv ++ fernetCt P c iv m) from by simp [List.append_assoc]]
    rw [show (9 : Nat) = ((128 : Nat) :: beBytes8 ts).length from by simp [hbl8]]
    rw [List.drop_left]
    rw [show (16 : Nat) = iv.length from hiv.symm]
    exact List.take_left _ _
  · show (128 :: (beBytes8 ts ++ iv ++ fernetCt P c iv m)).drop 25 = fernetCt P c iv m
    rw [show (128 : Nat) :: (beBytes8 ts ++ iv ++ fernetCt P c iv m) =
      (128 :: (beBytes8 ts ++ iv)) ++ fernetCt P c iv m from by simp [List.append_assoc]]
    rw [show (25 : Nat) = ((128 : Nat) :: (beBytes8 ts ++ iv)).length from by
      simp [hbl8, hiv]]
    exact List.drop_left _ _

/-- Decryption of a well-formed encryption succeeds with the original
plaintext. -/
theorem fernetDecrypt_fernetEncrypt (P : FernetPrims) (c : FernetCipher)
    (hP : GoodPrims P c) (ts : Nat) (iv m : List Nat) (hiv : iv.length = 16)
    (hivB : allBytes iv) (hm : allBytes m) :
    fernetDecrypt P c (fernetEncrypt P c ts iv m) = .ok m := by
  obtain ⟨hdB, hdlen, hdhead, hdtake, hddrop, hdiv, hdct⟩ :=
    fernetTokenBytes_decomp P c ts iv m hP hiv hivB hm
  obtain ⟨hct16, hctm, hctB, hctchunks⟩ := fernetCt_props P c iv m hP hiv hivB hm
  obtain ⟨hpadm, hpadlen, hpadB⟩ := pkcs7Pad_props m hm
  have hblocks := chunks16_blocks (pkcs7Pad m) hpadm hpadB
  have hcbc := cbc_roundtrip (P.aesEncBlock c.encryption_key)
    (P.aesDecBlock c.encryption_key) hP.1 (chunks16 (pkcs7Pad m)) iv hblocks hiv hivB
  unfold fernetDecrypt
  rw [show (fernetEncrypt P c ts iv m).data = B64.encode (fernetTokenBytes P c ts iv m)
    from rfl]
  rw [decode_encode _ hdB]
  dsimp only
  rw [if_neg (by omega), if_neg (by simp only [ne_eq, not_not]; exact hdhead), hdtake,
    hddrop, if_neg (by simp)]
  rw [hdiv, hdct, if_neg (by simp [hctm]), hctchunks, hcbc.2, flatten_chunks16,
    pkcs7Unpad_pad]

/-- C2: decryption inverts encryption for every plaintext byte string
and well-formed primitives, and two encryptions of the same plaintext
under distinct (fresh random) IVs produce distinct tokens, whatever the
timestamps. -/
theorem c2_fernet_roundtrip (P : FernetPrims) (c : FernetCipher) (hP : GoodPrims P c)
    (ts ts2 : Nat) (iv iv2 m : List Nat) (hiv : iv.length = 16) (hivB : allBytes iv)
    (hiv2 : iv2.length = 16) (hiv2B : allBytes iv2) (hm : allBytes m) (hne : iv ≠ iv2) :
    fernetDecrypt P c (fernetEncrypt P c ts iv m) = .ok m ∧
    fernetEncrypt P c ts iv m ≠ fernetEncrypt P c ts2 iv2 m := by
  refine ⟨fernetDecrypt_fernetEncrypt P c hP ts iv m hiv hivB hm, ?_⟩
  intro heq
  obtain ⟨hdB, _, _, hdtake, _, hdiv, _⟩ :=
    fernetTokenBytes_decomp P c ts iv m hP hiv hivB hm
  obtain ⟨hdB2, _, _, hdtake2, _, hdiv2, _⟩ :=
    fernetTokenBytes_decomp P c ts2 iv2 m hP hiv2 hiv2B hm
  have henc : B64.encode (fernetTokenBytes P c ts iv m) =
      B64.encode (fernetTokenBytes P c ts2 iv2 m) := congrArg String.data heq
  have hdata : fernetTokenBytes P c ts iv m = fernetTokenBytes P c ts2 iv2 m := by
    have h1 := decode_encode _ hdB
    have h2 := decode_encode _ hdB2
    rw [henc, h2] at h1
    exact (Option.some.inj h1).symm
  apply hne
  rw [← hdiv, ← hdiv2, ← hdtake, ← hdtake2, hdata]

/-- C2, witness: a concrete roundtrip and distinct-token pair under the
identity block cipher and a constant MAC. -/
theorem c2_witness :
    fernetDecrypt idPrims toyCipher (fernetEncrypt idPrims toyCipher 0 ivZero [10, 20, 30]) =
      .ok [10, 20, 30] ∧
    fernetEncrypt idPrims toyCipher 0 ivZero [10, 20, 30] ≠
      fernetEncrypt idPrims toyCipher 0 ivOne [10, 20, 30] :=
  c2_fernet_roundtrip idPrims toyCipher
    ⟨fun b hb hB => ⟨hb, hB, rfl⟩,
     fun _ => ⟨rfl, fun x hx => by rcases List.mem_replicate.mp hx with ⟨-, rfl⟩; omega⟩⟩
    0 0 ivZero ivOne [10, 20, 30] (by decide) (by decide) (by decide) (by decide)
    (by decide) (by decide)

/-! ## Token tampering (C8) -/

/-- Characters built from in-range code points keep their code point. -/
theorem charToNat_ofNat (n : Nat) (h : n < 55296) : (Char.ofNat n).toNat = n := by
  have hv : n.isValidChar := Or.inl h
  unfold Char.ofNat
  rw [dif_pos hv]
  simp [Char.ofNatAux, Char.toNat, UInt32.toNat]

/-- Flipping a bit of an ASCII character of a token changes the token. -/
theorem tokenFlip_ne (tok : List Char) (i b : Nat) (hi : i < tok.length) (hb : b < 8)
    (hascii : (tok.getD i 'A').toNat < 128) : tokenFlip tok i b ≠ tok := by
  intro heq
  have hxlt : (tok.getD i 'A').toNat ^^^ 2 ^ b < 256 :=
    Nat.xor_lt_two_pow (n := 8) (by omega)
      (by
        have : (2 : Nat) ^ b < 2 ^ 8 := Nat.pow_lt_pow_right (by norm_num) hb
        simpa using this)
  have h1 : (tokenFlip tok i b).getD i 'A' =
      Char.ofNat ((tok.getD i 'A').toNat ^^^ 2 ^ b) := by
    unfold tokenFlip
    rw [List.getD_eq_getElem?_getD, List.getElem?_set_self (by omega)]
    rfl
  rw [heq] at h1
  have h3 := congrArg Char.toNat h1
  rw [charToNat_ofNat _ (by omega)] at h3
  have h4 : (2 : Nat) ^ b = 0 := by
    calc (2 : Nat) ^ b
        = (tok.getD i 'A').toNat ^^^ ((tok.getD i 'A').toNat ^^^ 2 ^ b) :=
          (Nat.xor_cancel_left _ _).symm
      _ = (tok.getD i 'A').toNat ^^^ (tok.getD i 'A').toNat := by rw [← h3]
      _ = 0 := Nat.xor_self _
  have := Nat.two_pow_pos b
  omega

/-- Unpacking the executable no-forgery check: for every bit flip that
still decodes, the decoded bytes are the original token bytes or fail
one of the decrypt checks. -/
theorem forgeCheck_spec (P : FernetPrims) (c : FernetCipher) (data : List Nat)
    (tok : List Char) (h : forgeCheck P c data tok = true) :
    ∀ i b, i < tok.length → b < 8 → ∀ d, B64.decode (tokenFlip tok i b) = some d →
      d = data ∨ d.length < 73 ∨ d.headD 0 ≠ 128 ∨
        P.hmacSha256 c.signing_key (d.take (d.length - 32)) ≠ d.drop (d.length - 32) := by
  intro i b hi hb d hdec
  unfold forgeCheck at h
  rw [List.all_eq_true] at h
  have hi2 := h i (List.mem_range.mpr hi)
  rw [List.all_eq_true] at hi2
  have hb2 := hi2 b (List.mem_range.mpr hb)
  rw [hdec] at hb2
  simp at hb2 ⊢
  tauto

/-- C8: under the no-forgery hypothesis on the abstracted MAC (the
collision-freedom of HMAC-SHA256 on the finite set of bit-flip
candidates, stated as the executable `forgeCheck`), flipping any single
bit of a non-padding token character makes `decrypt` fail; moreover, on
any token, `decrypt` fails whenever the decoded bytes are shorter than
73, the version byte differs from 0x80, or the MAC does not verify —
and a padding failure can only be reached after the MAC verified, i.e.
the MAC is checked before decryption is attempted. -/
theorem c8_tamper (P : FernetPrims) (c : FernetCipher) (hP : GoodPrims P c) (ts : Nat)
    (iv m : List Nat) (hiv : iv.length = 16) (hivB : allBytes iv) (hm : allBytes m)
    (hforge : forgeCheck P c (fernetTokenBytes P c ts iv m)
      (fernetEncrypt P c ts iv m).data = true) :
    (∀ i b : Nat, i < (fernetEncrypt P c ts iv m).length → b < 8 →
      (fernetEncrypt P c ts iv m).data.getD i '=' ≠ '=' →
      decryptFails (fernetDecrypt P c
        (String.mk (tokenFlip (fernetEncrypt P c ts iv m).data i b))) = true) ∧
    (∀ (t : String) (d : List Nat), B64.decode t.data = some d → d.length < 73 →
      fernetDecrypt P c t = .error .tooShort) ∧
    (∀ (t : String) (d : List Nat), B64.decode t.data = some d → 73 ≤ d.length →
      d.headD 0 ≠ 128 → fernetDecrypt P c t = .error .invalidVersion) ∧
    (∀ (t : String) (d : List Nat), B64.decode t.data = some d → 73 ≤ d.length →
      d.headD 0 = 128 →
      P.hmacSha256 c.signing_key (d.take (d.length - 32)) ≠ d.drop (d.length - 32) →
      fernetDecrypt P c t = .error .hmacMismatch) ∧
    (∀ t : String, fernetDecrypt P c t = .error .badPadding →
      ∀ d, B64.decode t.data = some d →
        P.hmacSha256 c.signing_key (d.take (d.length - 32)) = d.drop (d.length - 32)) := by
  obtain ⟨hdB, hdlen, hdhead, hdtake, hddrop, hdiv, hdct⟩ :=
    fernetTokenBytes_decomp P c ts iv m hP hiv hivB hm
  refine ⟨?_, ?_, ?_, ?_, ?_⟩
  · intro i b hi hb _
    have hi2 : i < (fernetEncrypt P c ts iv m).data.length := hi
    cases hdec : B64.decode (tokenFlip (fernetEncrypt P c ts iv m).data i b) with
    | none =>
        unfold fernetDecrypt
        rw [show (String.mk (tokenFlip (fernetEncrypt P c ts iv m).data i b)).data =
          tokenFlip (fernetEncrypt P c ts iv m).data i b from rfl, hdec]
        rfl
    | some d =>
        obtain ⟨hcanon, hdbytes⟩ := decode_canon _ _ hdec
        have hne : d ≠ fernetTokenBytes P c ts iv m := by
          intro hdd
          subst hdd
          have hflip : tokenFlip (fernetEncrypt P c ts iv m).data i b =
              (fernetEncrypt P c ts iv m).data := by
            rw [← hcanon]
            rfl
          have hascii : ((fernetEncrypt P c ts iv m).data.getD i '=').toNat < 128 := by
            have hmem : (fernetEncrypt P c ts iv m).data.getD i '=' ∈
                (fernetEncrypt P c ts iv m).data := by
              rw [List.getD_eq_getElem _ _ hi2]
              exact List.getElem_mem hi2
            exact encode_ascii _ hdB _ hmem
          have : (fernetEncrypt P c ts iv m).data.getD i '=' =
              (fernetEncrypt P c ts iv m).data.getD i 'A' := by
            rw [List.getD_eq_getElem _ _ hi2, List.getD_eq_getElem _ _ hi2]
          exact tokenFlip_ne _ i b hi2 hb (by rw [← this]; exact hascii) hflip
        have hcases := forgeCheck_spec P c (fernetTokenBytes P c ts iv m)
          (fernetEncrypt P c ts iv m).data hforge i b hi2 hb d hdec
        unfold fernetDecrypt
        rw [show (String.mk (tokenFlip (fernetEncrypt P c ts iv m).data i b)).data =
          tokenFlip (fernetEncrypt P c ts iv m).data i b from rfl, hdec]
        dsimp only
        by_cases hlen : d.length < 73
        · rw [if_pos hlen]
          rfl
        · rw [if_neg hlen]
          by_cases hhead : d.headD 0 = 128
          · rw [if_neg (by simp only [ne_eq, not_not]; exact hhead)]
            have hmac : P.hmacSha256 c.signing_key (d.take (d.length - 32)) ≠
                d.drop (d.length - 32) := by
              rcases hcases with h | h | h | h
              · exact absurd h hne
              · exact absurd h hlen
              · exact absurd hhead h
              · exact h
            rw [if_pos hmac]
            rfl
          · rw [if_pos (by simpa using hhead)]
            rfl
  · intro t d hdec hlen
    unfold fernetDecrypt
    rw [hdec]
    dsimp only
    rw [if_pos hlen]
  · intro t d hdec hlen hhead
    unfold fernetDecrypt
    rw [hdec]
    dsimp only
    rw [if_neg (by omega), if_pos (by simpa using hhead)]
  · intro t d hdec hlen hhead hmac
    unfold fernetDecrypt
    rw [hdec]
    dsimp only
    rw [if_neg (by omega), if_neg (by simp only [ne_eq, not_not]; exact hhead), if_pos hmac]
  · intro t hbad d hdec
    unfold fernetDecrypt at hbad
    rw [hdec] at hbad
    dsimp only at hbad
    by_cases hlen : d.length < 73
    · rw [if_pos hlen] at hbad
      cases hbad
    · rw [if_neg hlen] at hbad
      by_cases hhead : d.headD 0 = 128
      · rw [if_neg (by simp only [ne_eq, not_not]; exact hhead)] at hbad
        by_cases hmac : P.hmacSha256 c.signing_key (d.take (d.length - 32)) ≠
            d.drop (d.length - 32)
        · rw [if_pos hmac] at hbad
          cases hbad
        · exact not_not.mp hmac
      · rw [if_pos (by simpa using hhead)] at hbad
        cases hbad

/-- The toy primitives used for the C8 witness satisfy the behavioural
assumptions: the identity block cipher trivially, and the two-valued MAC
because both of its outputs are 32 replicated bytes. -/
theorem goodPrims_flip : GoodPrims flipPrims toyCipher := by
  constructor
  · intro b hb hB
    exact ⟨hb, hB, rfl⟩
  · intro m
    show (macC8 toyCipher.signing_key m).length = 32 ∧
      allBytes (macC8 toyCipher.signing_key m)
    unfold macC8
    split
    · exact ⟨rfl, fun x hx => by rcases List.mem_replicate.mp hx with ⟨-, rfl⟩; omega⟩
    · exact ⟨rfl, fun x hx => by rcases List.mem_replicate.mp hx with ⟨-, rfl⟩; omega⟩

set_option maxRecDepth 100000 in
set_option maxHeartbeats 8000000 in
/-- C8, witness: flipping the lowest bit of the first character of a
concrete token makes decryption fail; the no-forgery side condition is
discharged by running the exhaustive `forgeCheck` over every single-bit
flip of that token. -/
theorem c8_witness :
    decryptFails (fernetDecrypt flipPrims toyCipher
      (String.mk (tokenFlip (fernetEncrypt flipPrims toyCipher 0 ivZero []).data 0 0))) =
      true :=
  (c8_tamper flipPrims toyCipher goodPrims_flip 0 ivZero [] (by decide) (by decide)
    (by decide) (by decide)).1 0 0 (by decide) (by decide) (by decide)

end HnlPods
